import Mathlib

/-!
Verification of the `django-template-reports` templating engine.

This file gives a shallow embedding, in Lean 4, of the parts of the
repository that the claims C1..C10 are about:

* `templating.py` (the legacy single-module templating engine):
  `get_nested_attr`, `parse_value`, `evaluate_condition`,
  `has_view_permission`, `split_expression`, `resolve_segment`,
  `resolve_tag_expression`, `process_text`;
* `templating/parser.py`: `split_expression`, `resolve_segment`,
  `resolve_tag_expression`;
* `pptx_renderer.py` / `pptx_renderer/merger.py`: `merge_runs_in_paragraph`;
* `pptx_renderer/tables.py`: `fill_column_with_list`, `clone_row_with_value`;
* `pptx_renderer/renderer.py` / `pptx_renderer.py`: the save gate of
  `render_pptx`;
* `office_renderer/loops.py`: the plan-building second pass of
  `process_loops`;
* `office_renderer/context_extractor.py`: `extract_context_keys`,
  `extract_top_level_context_keys_from_text`;
* `office_renderer/worksheets.py` together with `templating/list.py`.

Python values are modelled by the inductive type `PyVal`; machine-level
aspects that no claim depends on (binary floating point, object identity,
hash ordering) are modelled by exact rationals, structural equality and
insertion order, with a comment at each such point.  Where a module of the
repository is not present under `src/` (e.g. `templating/resolver.py`,
`templating/permissions.py`, `office_renderer/constants.py`), the
corresponding definition is modelled from the specification and marked
`Modelled from the spec:` in its doc comment.
-/

namespace TemplateReports

/-! ## Character-level string utilities

Python string primitives (`in`, `split`, `strip`, `lower`, `startswith` /
`endswith`) are modelled by executable functions on `List Char`, so that
every definition evaluates by `rfl`/`decide` on concrete inputs.
-/

/-- `dropPrefixQ pat cs` returns `some rest` iff `cs = pat ++ rest`. -/
def dropPrefixQ : List Char → List Char → Option (List Char)
  | [], cs => some cs
  | _ :: _, [] => Option.none
  | p :: ps, c :: cs => if p = c then dropPrefixQ ps cs else Option.none

/-- First occurrence of `pat` in `cs`: `some (pre, post)` with
`cs = pre ++ pat ++ post` and no occurrence of `pat` starting inside `pre`. -/
def findSub (pat : List Char) : List Char → Option (List Char × List Char)
  | [] => (dropPrefixQ pat []).map (fun r => ([], r))
  | c :: cs =>
    match dropPrefixQ pat (c :: cs) with
    | some rest => some ([], rest)
    | Option.none => (findSub pat cs).map (fun pr => (c :: pr.1, pr.2))

/-- Python's `pat in s` on character lists. -/
def subIn (pat : List Char) (cs : List Char) : Bool :=
  (findSub pat cs).isSome

/-- Python's `pat in s` on strings. -/
def subInStr (pat : String) (s : String) : Bool :=
  subIn pat.data s.data

theorem dropPrefixQ_some_eq {pat cs rest : List Char}
    (h : dropPrefixQ pat cs = some rest) : cs = pat ++ rest := by
  induction pat generalizing cs with
  | nil =>
    have : cs = rest := by simpa [dropPrefixQ] using h
    simpa using this
  | cons p ps ih =>
    cases cs with
    | nil => simp [dropPrefixQ] at h
    | cons c cs =>
      by_cases hpc : p = c
      · simp only [dropPrefixQ, if_pos hpc] at h
        simpa [hpc] using congrArg (c :: ·) (ih h)
      · simp [dropPrefixQ, hpc] at h

theorem findSub_some_eq {pat cs pre post : List Char}
    (h : findSub pat cs = some (pre, post)) : cs = pre ++ pat ++ post := by
  induction cs generalizing pre with
  | nil =>
    simp only [findSub] at h
    cases hd : dropPrefixQ pat [] with
    | some rest =>
      rw [hd] at h
      simp only [Option.map_some'] at h
      cases h
      have := dropPrefixQ_some_eq hd
      simp only [List.nil_eq, List.append_eq_nil] at this
      simp [this.1, this.2]
    | none => rw [hd] at h; simp at h
  | cons c cs ih =>
    simp only [findSub] at h
    cases hd : dropPrefixQ pat (c :: cs) with
    | some rest =>
      rw [hd] at h
      cases h
      simpa using dropPrefixQ_some_eq hd
    | none =>
      rw [hd] at h
      cases hfs : findSub pat cs with
      | some pr =>
        rw [hfs] at h
        cases pr with
        | mk pre2 post2 =>
          simp only [Option.map_some'] at h
          cases h
          simpa using congrArg (c :: ·) (ih hfs)
      | none => rw [hfs] at h; simp at h

/-- The split loop, structurally recursive on a fuel that bounds the
number of pieces (each split consumes at least one character of a
nonempty separator, so `cs.length + 1` pieces suffice). -/
def splitOnFuel (pat : List Char) : Nat → List Char → List (List Char)
  | 0, cs => [cs]
  | Nat.succ fuel, cs =>
    match findSub pat cs with
    | Option.none => [cs]
    | some pp => pp.1 :: splitOnFuel pat fuel pp.2

/-- Splitting on a (nonempty) separator, Python `str.split(sep)` semantics. -/
def splitOnSub (pat : List Char) (cs : List Char) : List (List Char) :=
  if pat.isEmpty then [cs] else splitOnFuel pat (cs.length + 1) cs

/-- Python `s.split(sep)` on strings (nonempty separator). -/
def pySplit (s : String) (sep : String) : List String :=
  (splitOnSub sep.data s.data).map List.asString

/-- Python `\w` (modelled over ASCII alphanumerics plus underscore). -/
def isWordChar (c : Char) : Bool :=
  c.isAlphanum || c = '_'

/-- Python `str.strip()` (whitespace at both ends removed). -/
def pyStrip (s : String) : String :=
  (((s.data.dropWhile Char.isWhitespace).reverse.dropWhile Char.isWhitespace).reverse).asString

/-- Python `str.lower()` (ASCII case folding suffices for the literals used). -/
def pyLower (s : String) : String :=
  (s.data.map Char.toLower).asString

/-- Number of occurrences of character `c` in `s` (for `str.count`). -/
def countChar (s : String) (c : Char) : Nat :=
  (s.data.filter (fun x => x = c)).length

/-- Split at the first occurrence of character `c`: Python `s.split(c, 1)`.
Returns `(s, Option.none)` when `c` does not occur. -/
def splitFirstChar (s : String) (c : Char) : String × Option String :=
  match findSub [c] s.data with
  | Option.none => (s, Option.none)
  | some (pre, post) => (pre.asString, some post.asString)

/-- The two-character token `{{` that opens a placeholder. -/
def openPat : List Char := ['{', '{']

/-- The two-character token `}}` that closes a placeholder. -/
def closePat : List Char := ['}', '}']

/-! ## The Python value model

`PyVal` models the context values the templating engine manipulates
(§3 of the spec): scalars, temporal values, records, mappings,
collections.  Callables are modelled zero-result: `fn argc r` is a
callable of arity `argc` whose invocation returns `r` (`Option.none`
models an invocation that raises).  `dt t` is a date/datetime carrying an
abstract timestamp; `qs elems` is a queryset-like collection (it exposes
`filter`/`all`).  `obj name strRep hasMeta attrs` is a record: `name`
identifies it to the permission principal, `strRep` is its `__str__`,
`hasMeta` models the presence of the Django `_meta` marker, and `attrs`
are its named attributes. -/
inductive PyVal : Type where
  | none : PyVal
  | str : String → PyVal
  | int : Int → PyVal
  | float : Rat → PyVal
  | bool : Bool → PyVal
  | dt : Nat → PyVal
  | fn : Nat → Option PyVal → PyVal
  | list : List PyVal → PyVal
  | dict : List (String × PyVal) → PyVal
  | qs : List PyVal → PyVal
  | obj : String → String → Bool → List (String × PyVal) → PyVal
deriving Repr

namespace PyVal

/-- Assoc-list lookup, modelling Python `dict` key lookup (dictionaries
built by the engine never contain duplicate keys, so assoc lookup agrees
with Python's hash lookup). -/
def lookupKey (es : List (String × PyVal)) (k : String) : Option PyVal :=
  match es with
  | [] => Option.none
  | (k2, v) :: rest => if k2 = k then some v else lookupKey rest k

/-- `isinstance(v, list)` (the engine never manufactures tuples, so the
`(list, tuple)` checks of the source are modelled by the list case). -/
def isList : PyVal → Bool
  | .list _ => true
  | _ => false

/-- `v is None`. -/
def isNone : PyVal → Bool
  | .none => true
  | _ => false

/-- `callable(v)`. -/
def isCallable : PyVal → Bool
  | .fn _ _ => true
  | _ => false

/-- `hasattr(v, "strftime")`: only temporal values support it. -/
def isDt : PyVal → Bool
  | .dt _ => true
  | _ => false

/-- `v is not None and hasattr(v, "filter") and callable(v.filter)`:
queryset-like collections are the only values exposing `filter`. -/
def isQueryset : PyVal → Bool
  | .qs _ => true
  | _ => false

mutual

/-- Python `==` on modelled values.  Numeric cross-type equality
(`1 == True`, `1 == 1.0`) follows Python; records compare structurally
(value identity models object identity); callables are never equal. -/
def pyEq : PyVal → PyVal → Bool
  | .none, .none => true
  | .str a, .str b => a == b
  | .int a, .int b => a == b
  | .int a, .float b => (a : Rat) == b
  | .float a, .int b => a == (b : Rat)
  | .float a, .float b => a == b
  | .bool a, .bool b => a == b
  | .bool a, .int b => (if a then (1 : Int) else 0) == b
  | .int a, .bool b => a == (if b then (1 : Int) else 0)
  | .bool a, .float b => (if a then (1 : Rat) else 0) == b
  | .float a, .bool b => a == (if b then (1 : Rat) else 0)
  | .dt a, .dt b => a == b
  | .list xs, .list ys => pyEqList xs ys
  | .dict xs, .dict ys => pyEqPairs xs ys
  | .qs xs, .qs ys => pyEqList xs ys
  | .obj n1 s1 m1 a1, .obj n2 s2 m2 a2 =>
    n1 == n2 && s1 == s2 && m1 == m2 && pyEqPairs a1 a2
  | _, _ => false

/-- Pointwise Python `==` on lists. -/
def pyEqList : List PyVal → List PyVal → Bool
  | [], [] => true
  | x :: xs, y :: ys => pyEq x y && pyEqList xs ys
  | _, _ => false

/-- Pointwise Python `==` on attribute lists. -/
def pyEqPairs : List (String × PyVal) → List (String × PyVal) → Bool
  | [], [] => true
  | (k1, v1) :: xs, (k2, v2) :: ys => k1 == k2 && pyEq v1 v2 && pyEqPairs xs ys
  | _, _ => false

end

end PyVal

/-- `sep.join(items)`. -/
def joinSep (sep : String) : List String → String
  | [] => ""
  | [x] => x
  | x :: y :: rest => x ++ sep ++ joinSep sep (y :: rest)

mutual

/-- Python `str(v)` on modelled values.  `str` of a temporal value and of
a callable are abstract renderings (no claim inspects them). -/
def pyStr : PyVal → String
  | .none => "None"
  | .str s => s
  | .int n => toString n
  | .float q => toString q
  | .bool b => if b then "True" else "False"
  | .dt t => "datetime<" ++ toString t ++ ">"
  | .fn _ _ => "<callable>"
  | .list xs => "[" ++ joinSep ", " (pyReprList xs) ++ "]"
  | .dict es => "<dict:" ++ joinSep ", " (es.map (fun p => p.1)) ++ ">"
  | .qs xs => "<queryset:" ++ toString xs.length ++ ">"
  | .obj _ strRep _ _ => strRep

/-- `repr` of each element, as used by Python inside `str(list)`:
strings are quoted, other values fall back to their `str` (a modelling
simplification for records; no claim depends on it). -/
def pyReprList : List PyVal → List String
  | [] => []
  | .str s :: xs => ("\x27" ++ s ++ "\x27") :: pyReprList xs
  | x :: xs => pyStr x :: pyReprList xs

end

/-- A permission principal: the decision `request_user.has_perm("view", v)`
as a function of the value (§6 "Principal contract"). -/
def Principal : Type := PyVal → Bool

/-- The single-quote character (written via its code point). -/
def squote : Char := Char.ofNat 39

/-- All-digit parse, accumulator style. -/
def digitsToNatGo (acc : Nat) : List Char → Option Nat
  | [] => some acc
  | c :: cs => if c.isDigit then digitsToNatGo (acc * 10 + (c.toNat - 48)) cs else Option.none

/-- Parse a nonempty all-digit string. -/
def digitsToNat : List Char → Option Nat
  | [] => Option.none
  | cs => digitsToNatGo 0 cs

/-- Python `int(s)` on an already-stripped string (sign plus digits;
underscore separators are not modelled, no literal in the repo uses them). -/
def pyIntParse (s : String) : Option Int :=
  match s.data with
  | '+' :: ds => (digitsToNat ds).map (fun n => (n : Int))
  | '-' :: ds => (digitsToNat ds).map (fun n => -(n : Int))
  | ds => (digitsToNat ds).map (fun n => (n : Int))

/-- Python `float(s)` on an already-stripped string, modelled by exact
rationals (fixed-point decimal forms only; exponents, `inf`/`nan` and
underscore separators are not modelled — the spec restricts literals to
the C2 forms). -/
def pyFloatParse (s : String) : Option Rat :=
  let signed : Int × List Char :=
    match s.data with
    | '+' :: rest => (1, rest)
    | '-' :: rest => (-1, rest)
    | rest => (1, rest)
  let sign := signed.1
  let ds := signed.2
  match findSub ['.'] ds with
  | Option.none => (digitsToNat ds).map (fun n => (sign * n : Int))
  | some (ipart, fpart) =>
    if subIn ['.'] fpart then Option.none
    else if ipart.isEmpty && fpart.isEmpty then Option.none
    else
      let iOpt : Option Nat := if ipart.isEmpty then some 0 else digitsToNat ipart
      let fOpt : Option (Nat × Nat) :=
        if fpart.isEmpty then some (0, 0)
        else (digitsToNat fpart).map (fun n => (n, fpart.length))
      match iOpt, fOpt with
      | some i, some fk =>
        some ((sign : Rat) * ((i : Rat) + (fk.1 : Rat) / ((10 : Rat) ^ fk.2)))
      | _, _ => Option.none

/-- `s.startswith(q) and s.endswith(q)` for a quote character `q`. -/
def isQuotedBy (q : Char) (cs : List Char) : Bool :=
  match cs with
  | [] => false
  | c :: rest =>
    c = q && (match rest.getLast? with | some l => l = q | Option.none => true)

/-! ## `templating.py` (the legacy single-module engine) -/

namespace Tmpl

/-- `templating.parse_value`: booleans, then int, then float, then
quote-stripping, else the bare string. -/
def parse_value (valStr : String) : PyVal :=
  let v := pyStrip valStr
  if pyLower v = "true" then PyVal.bool true
  else if pyLower v = "false" then PyVal.bool false
  else
    match pyIntParse v with
    | some n => PyVal.int n
    | Option.none =>
      match pyFloatParse v with
      | some q => PyVal.float q
      | Option.none =>
        if isQuotedBy '"' v.data || isQuotedBy squote v.data then
          PyVal.str ((v.data.drop 1).dropLast.asString)
        else PyVal.str v

/-- The `if callable(obj): try: obj = obj() except: obj = None` step inside
`get_nested_attr`: a zero-arity callable is invoked (a raising invocation
or a wrong-arity call is swallowed into `None`); anything else passes
through. -/
def autoCall : PyVal → PyVal
  | .fn 0 (some r) => r
  | .fn _ _ => PyVal.none
  | v => v

/-- One lookup step of `get_nested_attr`: mapping key lookup for dicts,
`getattr(obj, part, None)` otherwise (scalar values carry no modelled
attributes). -/
def lookupPart (v : PyVal) (part : String) : PyVal :=
  match v with
  | .dict es => (PyVal.lookupKey es part).getD PyVal.none
  | .obj _ _ _ attrs => (PyVal.lookupKey attrs part).getD PyVal.none
  | _ => PyVal.none

/-- The part-by-part loop of `templating.get_nested_attr`. -/
def getNestedGo : PyVal → List String → PyVal
  | v, [] => v
  | .none, _ :: _ => PyVal.none
  | v, p :: rest => getNestedGo (autoCall (lookupPart v p)) rest

/-- `templating.get_nested_attr`: split the attribute on `__` and walk the
parts. -/
def get_nested_attr (obj : PyVal) (attr : String) : PyVal :=
  getNestedGo obj (pySplit attr "__")

/-- Parse of the condition regex `([\w__]+)\s*(==|=)\s*(.+)` of
`templating.evaluate_condition`, returning the attribute chain and the
raw value string. -/
def parseCondition (cond : String) : Option (String × String) :=
  let cs := cond.data
  let attr := cs.takeWhile isWordChar
  if attr.isEmpty then Option.none
  else
    match (cs.dropWhile isWordChar).dropWhile Char.isWhitespace with
    | '=' :: '=' :: r =>
      if r.isEmpty then some (attr.asString, "=") else some (attr.asString, r.asString)
    | '=' :: r =>
      if r.isEmpty then Option.none else some (attr.asString, r.asString)
    | _ => Option.none

/-- `templating.evaluate_condition`: equality of the resolved attribute
chain against the parsed literal. -/
def evaluate_condition (item : PyVal) (condition : String) : Bool :=
  match parseCondition condition with
  | Option.none => false
  | some ac => PyVal.pyEq (get_nested_attr item ac.1) (parse_value ac.2)

/-- `templating.has_view_permission`: values without the `_meta` marker
are always permitted; marked records ask the principal. -/
def has_view_permission (v : PyVal) (requestUser : Principal) : Bool :=
  match v with
  | .obj _ _ true _ => requestUser v
  | _ => true

/-- Is this `.` inside square brackets?  The lookahead `(?![^\[]*\])` of
the split regex succeeds exactly when some `]` occurs before any `[` in
the remainder. -/
def insideBracketTail (rest : List Char) : Bool :=
  (rest.takeWhile (fun c => c ≠ '[')).contains ']'

/-- The scan of `re.split(r"\.(?![^\[]*\])", expr)`. -/
def splitExpressionGo : List Char → List Char → List String
  | [], acc => [acc.reverse.asString]
  | '.' :: rest, acc =>
    if insideBracketTail rest then splitExpressionGo rest ('.' :: acc)
    else acc.reverse.asString :: splitExpressionGo rest []
  | c :: rest, acc => splitExpressionGo rest (c :: acc)

/-- `split_expression` (identical in `templating.py` and
`templating/parser.py`): split on `.` except inside `[...]`. -/
def split_expression (expr : String) : List String :=
  splitExpressionGo expr.data []

/-- Parse of the legacy segment regex `(\w+(?:__\w+)*)(\[(.*?)\])?$`:
attribute name plus optional filter body. -/
def parseSegmentLegacy (segment : String) : Option (String × Option String) :=
  let cs := segment.data
  let attr := cs.takeWhile isWordChar
  if attr.isEmpty then Option.none
  else
    match cs.dropWhile isWordChar with
    | [] => some (attr.asString, Option.none)
    | '[' :: rest =>
      match rest.getLast? with
      | some l => if l = ']' then some (attr.asString, some rest.dropLast.asString) else Option.none
      | Option.none => Option.none
    | _ => Option.none

/-- `templating.resolve_segment`: attribute fetch (mapped over lists
without flattening), then optional equality filtering, wrapping a
non-list value first. -/
def resolve_segment (current : PyVal) (segment : String) : PyVal :=
  match parseSegmentLegacy segment with
  | Option.none => PyVal.none
  | some af =>
    let attrName := af.1
    let values : PyVal :=
      match current with
      | .list items => PyVal.list (items.map (fun it => get_nested_attr it attrName))
      | v => get_nested_attr v attrName
    match af.2 with
    | some f =>
      if f ≠ "" then
        let valueList := match values with | .list xs => xs | v => [v]
        let conditions := (pySplit f ",").map pyStrip
        PyVal.list (valueList.filter (fun it => conditions.all (fun c => evaluate_condition it c)))
      else values
    | Option.none => values

/-- The `for seg in segments[1:]` loop of the legacy
`resolve_tag_expression`: a `None` result short-circuits to `""`. -/
def goResolve : PyVal → List String → PyVal
  | cur, [] => cur
  | cur, seg :: rest =>
    let nxt := resolve_segment cur seg
    if nxt.isNone then PyVal.str "" else goResolve nxt rest

/-- `templating.resolve_tag_expression`: first segment is a context key,
remaining segments are resolved left to right. -/
def resolve_tag_expression (expr : String) (context : List (String × PyVal)) : PyVal :=
  match split_expression expr with
  | [] => PyVal.str ""
  | s0 :: rest =>
    match PyVal.lookupKey context s0 with
    | Option.none => PyVal.str ""
    | some cur0 => if cur0.isNone then PyVal.str "" else goResolve cur0 rest

/-- Abstract model of the platform `strftime` (external to the repo);
total, so the `try/except` around it in the source never fires in the
model. -/
def pyStrftime (t : Nat) (fmt : String) : String :=
  "strftime<" ++ toString t ++ "|" ++ fmt ++ ">"

/-- Strip one pair of matching surrounding quotes from a format string. -/
def stripFmtQuotes (fmtStr : String) : String :=
  if isQuotedBy '"' fmtStr.data || isQuotedBy squote fmtStr.data then
    (fmtStr.data.drop 1).dropLast.asString
  else fmtStr

/-- The post-permission tail of the legacy replacer: the `value == "" or
value is None` error case, list joining, and stringification. -/
def renderResolved (value : PyVal) (rawExpr : String) (errors : List String) : String × List String :=
  if PyVal.pyEq value (PyVal.str "") || value.isNone then ("", errors ++ [rawExpr])
  else
    match value with
    | .list items => (joinSep ", " ((items.filter (fun it => !it.isNone)).map pyStr), errors)
    | v => (pyStr v, errors)

/-- The `replacer` closure of `templating.process_text`: strip the tag
body, resolve (with optional `|`-format), enforce permissions (lists are
filtered, with the raw expression recorded when nothing survives;
disallowed scalars are emptied and recorded), then render. -/
def processTag (inner : String) (context : List (String × PyVal)) (errors : List String) (requestUser : Option Principal) (checkPermissions : Bool) : String × List String :=
  let rawExpr := pyStrip inner
  let value : PyVal :=
    if subInStr "|" rawExpr then
      let parts := splitFirstChar rawExpr '|'
      let valueExpr := pyStrip parts.1
      let fmtStr := stripFmtQuotes (pyStrip (parts.2.getD ""))
      match resolve_tag_expression valueExpr context with
      | .dt t => PyVal.str (pyStrftime t fmtStr)
      | v => PyVal.str (pyStr v)
    else resolve_tag_expression rawExpr context
  match checkPermissions, requestUser with
  | true, some u =>
    (match value with
     | .list items =>
       let permitted := items.filter (fun it => has_view_permission it u)
       if permitted.isEmpty then ("", errors ++ [rawExpr])
       else renderResolved (PyVal.list permitted) rawExpr errors
     | v =>
       if has_view_permission v u then renderResolved v rawExpr errors
       else ("", errors ++ [rawExpr]))
  | _, _ => renderResolved value rawExpr errors

/-- Scan for the first `}}`, returning the characters before it and the
characters after it (the non-greedy `(.*?)\}\}` step of the tag regex). -/
def scanTagClose : List Char → Option (List Char × List Char)
  | [] => Option.none
  | c :: rest =>
    if c = '}' ∧ rest.head? = some '}' then some ([], rest.tail)
    else (scanTagClose rest).map (fun pr => (c :: pr.1, pr.2))

theorem scanTagClose_length : ∀ (cs inner after : List Char),
    scanTagClose cs = some (inner, after) → after.length + 2 ≤ cs.length := by
  intro cs
  induction cs with
  | nil => intro inner after h; simp [scanTagClose] at h
  | cons c rest ih =>
    intro inner after h
    by_cases hc : c = '}' ∧ rest.head? = some '}'
    · simp only [scanTagClose, if_pos hc] at h
      cases h
      cases rest with
      | nil => simp at hc
      | cons r rs =>
        simp only [List.tail_cons, List.length_cons]
        omega
    · simp only [scanTagClose, if_neg hc] at h
      cases hsc : scanTagClose rest with
      | some pr =>
        rw [hsc] at h
        simp only [Option.map_some'] at h
        cases h
        have := ih pr.1 pr.2 (by simpa using hsc)
        simp only [List.length_cons]
        omega
      | none => rw [hsc] at h; simp at h

/-- The scan of `re.sub(r"\{\{(.*?)\}\}", replacer, text)` in
`templating.process_text`: each placeholder is replaced by the replacer
output, threading the error list.  Structurally recursive on a fuel
bounding the number of scan steps (each step consumes at least one
character, so `cs.length + 1` steps suffice). -/
def processChars (context : List (String × PyVal)) (requestUser : Option Principal) (checkPermissions : Bool) : Nat → List Char → List String → String × List String
  | 0, cs, errors => (cs.asString, errors)
  | Nat.succ fuel, cs, errors =>
    match cs with
    | [] => ("", errors)
    | c :: rest =>
      if c = '{' ∧ rest.head? = some '{' then
        match scanTagClose rest.tail with
        | some ia =>
          let pr := processTag ia.1.asString context errors requestUser checkPermissions
          let tl := processChars context requestUser checkPermissions fuel ia.2 pr.2
          (pr.1 ++ tl.1, tl.2)
        | Option.none => ((c :: rest).asString, errors)
      else
        let tl := processChars context requestUser checkPermissions fuel rest errors
        (c.toString ++ tl.1, tl.2)

/-- `templating.process_text`. -/
def process_text (text : String) (context : List (String × PyVal)) (errors : List String) (requestUser : Option Principal) (checkPermissions : Bool) : String × List String :=
  processChars context requestUser checkPermissions (text.data.length + 1) text.data errors

end Tmpl

/-! ## `templating/parser.py` -/

namespace ParserPy

/-- Typed errors of the parser engine (`templating/exceptions.py` names
them `BadTagException`, `MissingDataException`, `TagCallableException`). -/
inductive TagErr : Type where
  | badTag : TagErr
  | missingData : TagErr
  | tagCallable : TagErr
deriving DecidableEq, Repr

/-- Modelled from the spec: `templating/resolver.py` is not under `src/`.
§4.3 specifies its `get_nested_attr` with exactly the algorithm of the
in-src `templating.get_nested_attr` (split on `__`, mapping lookup or
reflective access, zero-arg auto-invoke with failures swallowed, does not
raise), so the resolver is modelled by that in-src twin. -/
def resolverGetNestedAttr : PyVal → String → PyVal := Tmpl.get_nested_attr

/-- Modelled from the spec: `templating/resolver.py` (absent from `src/`)
also holds `parse_callable_args`; §4.5 restricts invocation arguments to
the C2 literal forms, so the model comma-splits and parses each literal
with the C2 parser. -/
def parse_callable_args (argsStr : String) : List PyVal :=
  if pyStrip argsStr = "" then []
  else (pySplit argsStr ",").map Tmpl.parse_value

/-- Modelled from the spec: `templating/permissions.py` is not under
`src/`.  §4.4 specifies the gate decision (`null` principal permits,
non-records are permitted, records query the principal), and §7 lists
PermissionDenied as *accumulated*, not raised; the call therefore returns
its decision and has no control-flow effect — `resolve_segment` in the
source discards the result. -/
def enforce_permissions (v : PyVal) (permUser : Option Principal) : Bool :=
  match permUser with
  | Option.none => true
  | some u => Tmpl.has_view_permission v u

/-- One `key=value` condition of a queryset filter, per the in-src regex
`([\w__]+)\s*=\s*(.+)` of `resolve_segment` (value stripped, then one
pair of matching quotes removed). -/
def parseFilterPair (cond : String) : Option (String × String) :=
  let cs := cond.data
  let attr := cs.takeWhile isWordChar
  if attr.isEmpty then Option.none
  else
    match (cs.dropWhile isWordChar).dropWhile Char.isWhitespace with
    | '=' :: r =>
      if r.isEmpty then Option.none
      else
        let valRaw := pyStrip r.asString
        let val :=
          if isQuotedBy '"' valRaw.data || isQuotedBy squote valRaw.data then
            (valRaw.data.drop 1).dropLast.asString
          else valRaw
        some (attr.asString, val)
    | _ => Option.none

/-- Insert with overwrite, modelling `filter_dict[key] = val`. -/
def dictUpsert (d : List (String × String)) (k v : String) : List (String × String) :=
  if (d.find? (fun p => p.1 = k)).isSome then
    d.map (fun p => if p.1 = k then (k, v) else p)
  else d ++ [(k, v)]

/-- The `filter_dict` built from a filter expression in the queryset
branch of `resolve_segment` (unparseable conditions are skipped). -/
def buildFilterDict (filterExpr : String) : List (String × String) :=
  ((pySplit filterExpr ",").map pyStrip).foldl
    (fun d c =>
      match parseFilterPair c with
      | some kv => dictUpsert d kv.1 kv.2
      | Option.none => d)
    []

/-- Modelled external collection capability (§3: a collection may expose
`filter(k=v,…)`): keep the elements whose attribute chains equal the
given strings.  `all()` materializes the elements unchanged. -/
def qsFilter (elems : List PyVal) (conds : List (String × String)) : List PyVal :=
  elems.filter (fun e =>
    conds.all (fun kv => PyVal.pyEq (resolverGetNestedAttr e kv.1) (PyVal.str kv.2)))

/-- `tailOk r`: can `r` complete the segment after a candidate `)`?
(the `(?:\[(.*?)\])?$` tail of the segment regex). -/
def tailOk (r : List Char) : Bool :=
  r.isEmpty || (r.head? = some '[' && r.getLast? = some ']')

/-- The non-greedy scan for the `)` closing the argument list: the first
`)` whose tail completes the segment (regex backtracking on `\((.*?)\)`). -/
def splitParenArgs : List Char → Option (List Char × List Char)
  | [] => Option.none
  | c :: rest =>
    if c = ')' ∧ tailOk rest then some ([], rest)
    else (splitParenArgs rest).map (fun pr => (c :: pr.1, pr.2))

/-- Parse of the segment regex
`^(\w+(?:__\w+)*)(?:\((.*?)\))?(?:\[(.*?)\])?$` of
`templating/parser.py`: attribute name, optional call-argument string,
optional filter body. -/
def parseSegmentP (segment : String) : Option (String × Option String × Option String) :=
  let cs := segment.data
  let attr := cs.takeWhile isWordChar
  if attr.isEmpty then Option.none
  else
    match cs.dropWhile isWordChar with
    | [] => some (attr.asString, Option.none, Option.none)
    | '(' :: r =>
      (match splitParenArgs r with
       | Option.none => Option.none
       | some at2 =>
         match at2.2 with
         | [] => some (attr.asString, some at2.1.asString, Option.none)
         | tail => some (attr.asString, some at2.1.asString, some ((tail.drop 1).dropLast.asString)))
    | '[' :: r =>
      (match r.getLast? with
       | some l =>
         if l = ']' then some (attr.asString, Option.none, some r.dropLast.asString)
         else Option.none
       | Option.none => Option.none)
    | _ => Option.none

/-- The queryset / list-or-scalar filtering stage at the end of
`resolve_segment` (lines 247-280 of `templating/parser.py`): querysets
are filtered server-side or materialized via `all()`; otherwise the value
is coerced to a list, equality-filtered when a filter is present, and
`enforce_permissions` is called on each element of the coerced list with
its result discarded, exactly as in the source. -/
def resolveSegFilterStage (value : PyVal) (filterExpr : Option String) (permUser : Option Principal) : PyVal :=
  match value with
  | .qs elems =>
    (match filterExpr with
     | some f =>
       if f ≠ "" then PyVal.list (qsFilter elems (buildFilterDict f))
       else PyVal.list elems
     | Option.none => PyVal.list elems)
  | _ =>
    let valueList := match value with | .list xs => xs | v => [v]
    let filtered : PyVal :=
      match filterExpr with
      | some f =>
        if f ≠ "" then
          PyVal.list (valueList.filter (fun it =>
            ((pySplit f ",").map pyStrip).all (fun c => Tmpl.evaluate_condition it c)))
        else value
      | Option.none => value
    let _checks := valueList.all (fun it => enforce_permissions it permUser)
    filtered

/-- The non-list body of `resolve_segment`: attribute fetch, optional
call (non-callables and failing or wrong-arity invocations raise
`TagCallableException`), then the filtering stage. -/
def resolveSegCoreP (current : PyVal) (attrName : String) (callArgs : Option String) (filterExpr : Option String) (permUser : Option Principal) : Except TagErr PyVal :=
  let value := resolverGetNestedAttr current attrName
  match callArgs with
  | some astr =>
    (match value with
     | .fn argc res =>
       let args := parse_callable_args astr
       if argc = args.length then
         match res with
         | some v => .ok (resolveSegFilterStage v filterExpr permUser)
         | Option.none => .error TagErr.tagCallable
       else .error TagErr.tagCallable
     | _ => .error TagErr.tagCallable)
  | Option.none => .ok (resolveSegFilterStage value filterExpr permUser)

mutual

/-- `templating/parser.py` `resolve_segment`: bracket-balance checks,
segment parse, recursive map-and-flatten over lists, else the core. -/
def resolve_segment (current : PyVal) (segment : String) (permUser : Option Principal) : Except TagErr PyVal :=
  if countChar segment '(' ≠ countChar segment ')' then .error TagErr.badTag
  else if countChar segment '[' ≠ countChar segment ']' then .error TagErr.badTag
  else
    match parseSegmentP segment with
    | Option.none => .error TagErr.badTag
    | some acf =>
      match current with
      | .list items =>
        (match resolveSegList items segment permUser with
         | .error e => .error e
         | .ok rs => .ok (PyVal.list rs))
      | cur => resolveSegCoreP cur acf.1 acf.2.1 acf.2.2 permUser

/-- The per-element recursion of `resolve_segment` over a list value,
flattening one level of list results. -/
def resolveSegList (items : List PyVal) (segment : String) (permUser : Option Principal) : Except TagErr (List PyVal) :=
  match items with
  | [] => .ok []
  | x :: rest =>
    match resolve_segment x segment permUser with
    | .error e => .error e
    | .ok r =>
      match resolveSegList rest segment permUser with
      | .error e => .error e
      | .ok rs => .ok ((match r with | .list ys => ys | v => [v]) ++ rs)

end

/-- `^[#%]*$` full match: every character is `#` or `%` (including the
empty segment). -/
def isBadSegment (s : String) : Bool :=
  s.data.all (fun c => c = '#' || c = '%')

/-- The `for seg in segments` walk of the parser
`resolve_tag_expression`: a `None` result short-circuits to `""`. -/
def goSegsP : PyVal → List String → Option Principal → Except TagErr PyVal
  | current, [], _ => .ok current
  | current, seg :: rest, pu =>
    match resolve_segment current seg pu with
    | .error e => .error e
    | .ok v => if v.isNone then .ok (PyVal.str "") else goSegsP v rest pu

/-- `templating/parser.py` `resolve_tag_expression`.  The wall clock
`datetime.datetime.now()` is passed in as `now`.  Note the source
*returns* the current time as soon as the first segment is `now`,
without walking the remaining segments. -/
def resolve_tag_expression (now : Nat) (expr : String) (context : List (String × PyVal)) (permUser : Option Principal) : Except TagErr PyVal :=
  match Tmpl.split_expression expr with
  | [] => .ok (PyVal.str "")
  | s0 :: rest =>
    if s0 = "" then .ok (PyVal.str "")
    else if (s0 :: rest).any isBadSegment then .error TagErr.badTag
    else if pyStrip s0 = "now" then .ok (PyVal.dt now)
    else goSegsP (PyVal.dict context) (s0 :: rest) permUser

/-- The specification reading of §4.5 steps 5-6 for claim C7 (refinement
counterpart, written from the spec's words, not from the source): "If the
first segment is `now`, the initial value is the current time; ...  Walk
segments left-to-right, applying `resolve_segment`" — i.e. after `now`
the *remaining* segments are still walked. -/
def resolveTagExpressionSpecC7 (now : Nat) (expr : String) (context : List (String × PyVal)) (permUser : Option Principal) : Except TagErr PyVal :=
  match Tmpl.split_expression expr with
  | [] => .ok (PyVal.str "")
  | s0 :: rest =>
    if s0 = "" then .ok (PyVal.str "")
    else if (s0 :: rest).any isBadSegment then .error TagErr.badTag
    else if pyStrip s0 = "now" then goSegsP (PyVal.dt now) rest permUser
    else goSegsP (PyVal.dict context) (s0 :: rest) permUser

end ParserPy

/-- The literal token `{{` as a string. -/
def openTok : String := "\x7b\x7b"

/-- The literal token `}}` as a string. -/
def closeTok : String := "\x7d\x7d"

/-! ## `pptx_renderer.py` / `pptx_renderer/merger.py`: run merging

`merge_runs_in_paragraph` is modelled over the list of run texts of a
paragraph; the two in-src copies share this control flow, and the text
processing they delegate to is the in-src `templating.process_text`
(the package variant `templating/core.py` is absent from `src/`). -/

namespace Merger

/-- The inner `while j < len(runs)` scan: concatenate following runs
until one containing `}}` is reached (that run included), returning the
concatenation and the runs after it. -/
def scanForClose : List String → Option (String × List String)
  | [] => Option.none
  | r :: rest =>
    if subInStr closeTok r then some (r, rest)
    else (scanForClose rest).map (fun sr => (r ++ sr.1, sr.2))

theorem scanForClose_length : ∀ (l : List String) (s : String) (rem : List String),
    scanForClose l = some (s, rem) → rem.length < l.length := by
  intro l
  induction l with
  | nil => intro s rem h; simp [scanForClose] at h
  | cons r rest ih =>
    intro s rem h
    by_cases hc : subInStr closeTok r = true
    · simp only [scanForClose, if_pos hc] at h
      cases h
      simp
    · simp only [scanForClose, if_neg hc] at h
      cases hsc : scanForClose rest with
      | some sr =>
        rw [hsc] at h
        simp only [Option.map_some'] at h
        cases h
        have := ih sr.1 sr.2 (by simpa using hsc)
        simp only [List.length_cons]
        omega
      | none => rw [hsc] at h; simp at h

/-- `merge_runs_in_paragraph`: runs containing `{{` but no `}}` absorb
following runs up to the first one containing `}}` (raising
`UnterminatedTagException`, modelled as `.error ()`, when the paragraph
is exhausted first); every (merged or single) run text is passed through
`process_text` and the merged-in runs are deleted.  Returns the final run
texts and the accumulated errors. -/
def merge_runs_in_paragraph (runs : List String) (context : List (String × PyVal)) (errors : List String) (requestUser : Option Principal) (checkPermissions : Bool) : Except Unit (List String × List String) :=
  match runs with
  | [] => .ok ([], errors)
  | cur :: rest =>
    if subInStr openTok cur ∧ ¬ subInStr closeTok cur then
      match h : scanForClose rest with
      | Option.none => .error ()
      | some sa =>
        let pr := Tmpl.process_text (cur ++ sa.1) context errors requestUser checkPermissions
        (match merge_runs_in_paragraph sa.2 context pr.2 requestUser checkPermissions with
         | .error e => .error e
         | .ok tl => .ok (pr.1 :: tl.1, tl.2))
    else
      let pr := Tmpl.process_text cur context errors requestUser checkPermissions
      (match merge_runs_in_paragraph rest context pr.2 requestUser checkPermissions with
       | .error e => .error e
       | .ok tl => .ok (pr.1 :: tl.1, tl.2))
termination_by runs.length
decreasing_by
  · have := scanForClose_length rest sa.1 sa.2 (by simpa using h)
    simp only [List.length_cons]
    omega
  · simp only [List.length_cons]
    omega

end Merger

/-! ## `pptx_renderer/tables.py`: column fill -/

namespace Tables

/-- Typed errors of the table expander (`TableCellOverwriteError`,
`TableError`, and Python's `IndexError` from `[].pop(0)`). -/
inductive TblErr : Type where
  | cellOverwrite : TblErr
  | tableError : TblErr
  | indexError : TblErr
deriving DecidableEq, Repr

/-- A table is a list of rows; a row is the list of its cells' texts. -/
def setCellAt (rows : List (List String)) (r c : Nat) (text : String) : List (List String) :=
  rows.set r ((rows.getD r []).set c text)

/-- `clone_row_with_value`: deep-copy the row; a cell that is empty and
not the target is skipped; a cell containing `{{` is cleared (this branch
also wins for the target cell); otherwise the target cell receives the
new text.  Out-of-bounds target raises `TableError`. -/
def clone_row_with_value (originalRow : List String) (cellIndex : Nat) (newText : String) : Except TblErr (List String) :=
  if cellIndex < originalRow.length then
    .ok (originalRow.enum.map (fun ic =>
      if ic.2 = "" ∧ ic.1 ≠ cellIndex then ic.2
      else if subInStr openTok ic.2 then ""
      else if ic.1 = cellIndex then newText
      else ic.2))
  else .error TblErr.tableError

/-- The `for r in table_rows[current_row_index + 1:]` loop of
`fill_column_with_list`: rows with a cell at the column are checked
(non-blank raises `TableCellOverwriteError`), then
`remaining_items.pop(0)` is written — popping an empty list raises
`IndexError` — and the function returns as soon as no items remain.
Returns the updated rows and the still-unplaced items. -/
def fillBelowLoop (colIdx : Nat) : List (List String) → List String → Except TblErr (List (List String) × List String)
  | [], remaining => .ok ([], remaining)
  | r :: rest, remaining =>
    if colIdx < r.length then
      if pyStrip (r.getD colIdx "") ≠ "" then .error TblErr.cellOverwrite
      else
        match remaining with
        | [] => .error TblErr.indexError
        | item :: remRest =>
          let r2 := r.set colIdx item
          if remRest.isEmpty then .ok (r2 :: rest, [])
          else
            (match fillBelowLoop colIdx rest remRest with
             | .error e => .error e
             | .ok rr => .ok (r2 :: rr.1, rr.2))
    else
      (match fillBelowLoop colIdx rest remaining with
       | .error e => .error e
       | .ok rr => .ok (r :: rr.1, rr.2))

/-- `fill_column_with_list` over the row-of-cell-texts table model.  The
source cell is at `(rowIdx, colIdx)`; `items` are the stringified list
elements.  Empty `items` just clears the cell; otherwise the first item
goes into the source cell, following rows are filled through
`fillBelowLoop`, and any remaining items are placed by cloning the
(updated) source row and appending the clones. -/
def fill_column_with_list (rows : List (List String)) (rowIdx colIdx : Nat) (items : List String) : Except TblErr (List (List String)) :=
  match items with
  | [] => .ok (setCellAt rows rowIdx colIdx "")
  | first :: restItems =>
    let rows1 := setCellAt rows rowIdx colIdx first
    if rowIdx < rows1.length then
      match fillBelowLoop colIdx (rows1.drop (rowIdx + 1)) restItems with
      | .error e => .error e
      | .ok br =>
        let rows2 := rows1.take (rowIdx + 1) ++ br.1
        let srcRow := rows1.getD rowIdx []
        (match br.2.mapM (fun item => clone_row_with_value srcRow colIdx item) with
         | .error e => .error e
         | .ok clones => .ok (rows2 ++ clones))
    else .error TblErr.tableError

end Tables

/-! ## `office_renderer/loops.py`: the plan-building second pass -/

namespace Loops

/-- A slide handle in the render plan: an original slide of the template,
or a duplicate of slide `of` inserted at position `pos`
(`duplicate_slide(prs, slide, new_slide_index)`). -/
inductive SlideRef : Type where
  | orig : Nat → SlideRef
  | dup : Nat → Nat → SlideRef
deriving DecidableEq, Repr

/-- One entry of the `slides_to_process` plan. -/
structure SlideEntry : Type where
  slide : SlideRef
  slideNumber : Nat
  extraContext : Option (List (String × PyVal))
deriving Repr

/-- A section produced by the first pass: its buffered slides (by id),
and for loop sections the loop variable and the materialized collection. -/
structure LoopSection : Type where
  slides : List Nat
  loopVariableName : Option String
  loopCollection : Option (List PyVal)

/-- Python dict insertion (`d[k] = v`): overwrite in place or append. -/
def dictInsert (d : List (String × PyVal)) (k : String) (v : PyVal) : List (String × PyVal) :=
  if (d.find? (fun p => p.1 = k)).isSome then
    d.map (fun p => if p.1 = k then (k, v) else p)
  else d ++ [(k, v)]

/-- The extra context of one loop iteration:
`{**{var: item, "loop_count": n}, "loop_number": i+1}`. -/
def loopExtraContext (v : String) (item : PyVal) (n : Nat) (i : Nat) : List (String × PyVal) :=
  dictInsert (dictInsert (dictInsert [] v item) "loop_count" (PyVal.int n)) "loop_number" (PyVal.int (i + 1))

/-- The inner `for slide in slides` loop of a loop iteration: the first
iteration (`i == 0`) reuses the originals, later ones duplicate at the
current position (`current_slide_number - 1`). -/
def emitSlides (extra : List (String × PyVal)) (isFirst : Bool) : List Nat → Nat → List SlideEntry
  | [], _ => []
  | s :: rest, cur =>
    { slide := if isFirst then SlideRef.orig s else SlideRef.dup s (cur - 1),
      slideNumber := cur,
      extraContext := some extra } :: emitSlides extra isFirst rest (cur + 1)

/-- The `for i, loop_item in enumerate(loop_collection)` loop. -/
def emitItems (v : String) (n : Nat) (slides : List Nat) : List (Nat × PyVal) → Nat → List SlideEntry
  | [], _ => []
  | ip :: rest, cur =>
    emitSlides (loopExtraContext v ip.2 n ip.1) (ip.1 = 0) slides cur
      ++ emitItems v n slides rest (cur + slides.length)

/-- The non-loop passthrough: one entry per slide, no extra context. -/
def emitPassthrough : List Nat → Nat → List SlideEntry
  | [], _ => []
  | s :: rest, cur =>
    { slide := SlideRef.orig s, slideNumber := cur, extraContext := Option.none }
      :: emitPassthrough rest (cur + 1)

/-- One section of the second pass of `process_loops` (lines 258-306 of
`office_renderer/loops.py`); `Option.none` models the failing
`assert loop_collection is not None`. -/
def emitSection (sec : LoopSection) (startNum : Nat) : Option (List SlideEntry × Nat) :=
  match sec.loopVariableName with
  | Option.none =>
    let entries := emitPassthrough sec.slides startNum
    some (entries, startNum + entries.length)
  | some v =>
    match sec.loopCollection with
    | Option.none => Option.none
    | some items =>
      let entries := emitItems v items.length sec.slides items.enum startNum
      some (entries, startNum + entries.length)

/-- The whole second pass: fold the sections, threading
`current_slide_number` (which starts at 1 in the source). -/
def process_loops_plan : List LoopSection → Nat → Option (List SlideEntry)
  | [], _ => some []
  | sec :: rest, startNum =>
    match emitSection sec startNum with
    | Option.none => Option.none
    | some en =>
      (process_loops_plan rest en.2).map (fun tl => en.1 ++ tl)

end Loops

/-! ## The save gate of `render_pptx`

`pptx_renderer/renderer.py` walks every slide and shape, accumulating
resolution errors, and only saves when none were recorded; the legacy
`pptx_renderer.py` raises `UnresolvedTagError` instead of returning
`None`.  Per-shape processing is abstracted by a function giving the
errors a shape's processing records (its body lives in
`pptx_renderer/paragraphs.py` and the templating core, which are absent
from `src/`). -/

namespace Renderer

/-- The full traversal `for slide in prs.slides: for shape in
slide.shapes: ...` as the errors it accumulates; no branch of the
source's loop breaks out early. -/
def collectErrors {α : Type} (f : α → List String) (doc : List (List α)) : List String :=
  doc.flatMap (fun slide => slide.flatMap f)

/-- `pptx_renderer/renderer.py` `render_pptx` result: the returned value,
whether `prs.save(output_path)` ran, and the error list. -/
def render_pptx {α : Type} (f : α → List String) (doc : List (List α)) (outputPath : String) : Option String × Bool × List String :=
  let errors := collectErrors f doc
  if errors.isEmpty then (some outputPath, true, errors)
  else (Option.none, false, errors)

/-- Legacy `pptx_renderer.py` `render_pptx`: raises `UnresolvedTagError`
(modelled as `.error`) instead of returning `None`. -/
def render_pptx_legacy {α : Type} (f : α → List String) (doc : List (List α)) (outputPath : String) : Except String String × Bool × List String :=
  let errors := collectErrors f doc
  if errors.isEmpty then (.ok outputPath, true, errors)
  else (.error "UnresolvedTagError", false, errors)

end Renderer

/-! ## `office_renderer/context_extractor.py` -/

namespace Extractor

/-- The reserved identifiers skipped by the extractor. -/
def KEYS_TO_IGNORE : List String := ["now", "loop_count", "loop_number"]

/-- The scan loop of `re.findall(r"\{\{\s*(.*?)\s*\}\}", text)`,
structurally recursive on a fuel bounding the scan steps. -/
def collectTagsFuel : Nat → List Char → List String
  | 0, _ => []
  | Nat.succ fuel, cs =>
    match cs with
    | [] => []
    | c :: rest =>
      if c = '{' ∧ rest.head? = some '{' then
        match Tmpl.scanTagClose rest.tail with
        | some ia => ia.1.asString :: collectTagsFuel fuel ia.2
        | Option.none => []
      else collectTagsFuel fuel rest

/-- `re.findall(r"\{\{\s*(.*?)\s*\}\}", text)` up to the per-match
whitespace stripping, which is applied by the caller via `pyStrip`. -/
def collectTags (cs : List Char) : List String :=
  collectTagsFuel (cs.length + 1) cs

/-- `re.match(r"([^\.\[\]\|]+)", ph)` then `.group(1).strip()`. -/
def keyOfPlaceholder (ph : String) : Option String :=
  let lead := ph.data.takeWhile (fun c => !(c = '.' || c = '[' || c = ']' || c = '|'))
  if lead.isEmpty then Option.none else some (pyStrip lead.asString)

/-- `sorted(…)` of the extractor, by Python's lexicographic string
order (implemented as insertion sort; the result is the unique sorted
arrangement). -/
def sortStrings (l : List String) : List String :=
  List.insertionSort (fun a b => a ≤ b) l

/-- `sorted(set(…))`: duplicates removed, then sorted. -/
def sortDedup (l : List String) : List String :=
  sortStrings l.dedup

/-- One step of the classification loop of
`extract_top_level_context_keys_from_text`: skip empty placeholders,
unparseable heads and reserved identifiers; qualified heads go to the
object accumulator, bare ones to the simple accumulator. -/
def classifyStep (acc : List String × List String) (ph : String) : List String × List String :=
  if ph ≠ "" then
    match keyOfPlaceholder ph with
    | some key =>
      if KEYS_TO_IGNORE.contains key then acc
      else if subInStr "." ph || subInStr "[" ph then (acc.1, acc.2 ++ [key])
      else (acc.1 ++ [key], acc.2)
    | Option.none => acc
  else acc

/-- The classification loop of `extract_top_level_context_keys_from_text`
over the placeholders of one text, accumulating `(simple, object)` keys
in order of appearance. -/
def classifyKeys (phs : List String) : List String × List String :=
  phs.foldl classifyStep ([], [])

/-- `extract_top_level_context_keys_from_text`: find the placeholders,
classify their leading identifiers, return the two sorted duplicate-free
lists `(simple_fields, object_fields)`. -/
def extract_top_level_context_keys_from_text (text : String) : List String × List String :=
  let keys := classifyKeys ((collectTags text.data).map pyStrip)
  (sortDedup keys.1, sortDedup keys.2)

/-- Modelled from the spec: `office_renderer/constants.py` (absent from
`src/`) holds `LOOP_START_PATTERN_STR`; §6 fixes the loop directive
literal form `%loop <ident> in <expr>%`.  The directive is matched on the
stripped text: `%loop`, whitespace, a word identifier, whitespace, `in`,
whitespace, a nonempty expression up to the closing `%`. -/
def extract_loop_directive (text : String) : Option (String × String) :=
  let t := (pyStrip text).data
  match dropPrefixQ "%loop".data t with
  | Option.none => Option.none
  | some r1 =>
    let r2 := r1.dropWhile Char.isWhitespace
    if r1.length = r2.length then Option.none
    else
      let var := r2.takeWhile isWordChar
      if var.isEmpty then Option.none
      else
        let r3 := r2.dropWhile isWordChar
        let r4 := r3.dropWhile Char.isWhitespace
        if r3.length = r4.length then Option.none
        else
          match dropPrefixQ "in".data r4 with
          | Option.none => Option.none
          | some r5 =>
            let r6 := r5.dropWhile Char.isWhitespace
            if r5.length = r6.length then Option.none
            else
              match findSub ['%'] r6 with
              | Option.none => Option.none
              | some cp =>
                if cp.1.isEmpty then Option.none
                else some (var.asString, cp.1.asString)

/-- A shape as the extractor sees it: a text frame is its paragraph
texts; a table is per-cell paragraph texts; a chart is its raw data
columns.  Run merging (`merge_split_placeholders`, whose module is absent
from `src/`) leaves `paragraph.text` — the concatenation of its runs —
unchanged, so paragraphs are modelled by their text directly. -/
inductive OfficeShape : Type where
  | textFrame : List String → OfficeShape
  | table : List (List String) → OfficeShape
  | chart : List (List String) → OfficeShape

/-- The loop variables declared by loop-start sentinels
(`shape.text_frame.text` is the `"\n"`-join of its paragraphs). -/
def declaredLoopVars (shapes : List OfficeShape) : List String :=
  shapes.filterMap (fun sh =>
    match sh with
    | .textFrame ps => (extract_loop_directive (joinSep "\n" ps)).map (fun p => p.1)
    | _ => Option.none)

/-- All texts the extractor scans, in walk order. -/
def walkTexts (shapes : List OfficeShape) : List String :=
  shapes.flatMap (fun sh =>
    match sh with
    | .textFrame ps => ps
    | .table cells => cells.flatMap (fun c => c)
    | .chart cols => cols.flatMap (fun c => c))

/-- `extract_context_keys`: union the per-text keys, subtract the loop
variables from the object fields (the source subtracts them *only*
there), and return both lists sorted and deduplicated. -/
def extract_context_keys (shapes : List OfficeShape) : List String × List String :=
  let loopVars := declaredLoopVars shapes
  let pairs := (walkTexts shapes).map extract_top_level_context_keys_from_text
  let simpleAll := pairs.flatMap (fun p => p.1)
  let objectAll := pairs.flatMap (fun p => p.2)
  (sortDedup simpleAll, sortDedup (objectAll.filter (fun k => !loopVars.contains k)))

end Extractor

/-! ## `office_renderer/worksheets.py` with `templating/list.py` -/

namespace Worksheets

/-- The parameter names of `process_text_list` (`templating/list.py`,
lines 5-11); it has no `**kwargs`. -/
def process_text_list_params : List String :=
  ["items", "context", "perm_user", "as_float", "fail_if_not_float"]

/-- The keyword arguments `process_worksheet` passes to
`process_text_list` (the `process_kwargs` dict of
`office_renderer/worksheets.py`, plus the positional `items`). -/
def process_worksheet_kwargs : List String :=
  ["context", "perm_user", "as_float", "fail_if_not_float", "fail_if_empty"]

/-- The exception class names defined in
`office_renderer/exceptions.py`. -/
def office_renderer_exception_names : List String :=
  ["UnsupportedFileType", "UnterminatedTagException", "UnresolvedTagError",
   "TableError", "TableCellOverwriteError", "ChartError"]

/-- The names `worksheets.py` imports `from .exceptions`. -/
def worksheets_imported_exception_names : List String := ["CellOverwriteError"]

/-- The two Python failure modes on this path. -/
inductive PyCallErr : Type where
  | typeErrorUnexpectedKwarg : PyCallErr
  | importError : PyCallErr
deriving DecidableEq, Repr

/-- Does importing `worksheets.py` succeed?  Python resolves each
name being imported against the module's definitions at import time. -/
def worksheetsImportOk : Bool :=
  worksheets_imported_exception_names.all
    (fun n => office_renderer_exception_names.contains n)

/-- Python call semantics for `process_text_list(**kwargs)`: a keyword
absent from the signature raises `TypeError`; otherwise the call runs
(its successful result is irrelevant to the claim and modelled as the
singleton of the input). -/
def callProcessTextList (kwargs : List String) (item : String) : Except PyCallErr (List String) :=
  if kwargs.all (fun k => process_text_list_params.contains k) then .ok [item]
  else .error PyCallErr.typeErrorUnexpectedKwarg

/-- The inner `for cell in col` loop: every cell calls
`process_text_list(**process_kwargs)`; a raised `TypeError` propagates. -/
def processCellsCol : List String → Except PyCallErr (List String)
  | [] => .ok []
  | cell :: rest =>
    match callProcessTextList process_worksheet_kwargs cell with
    | .error e => .error e
    | .ok l =>
      match processCellsCol rest with
      | .error e => .error e
      | .ok rs => .ok (l.headD cell :: rs)

/-- The outer `for col in worksheet.iter_cols()` loop of
`process_worksheet`, assuming the module had imported. -/
def processWorksheetCells : List (List String) → Except PyCallErr (List (List String))
  | [] => .ok []
  | col :: rest =>
    match processCellsCol col with
    | .error e => .error e
    | .ok c2 =>
      match processWorksheetCells rest with
      | .error e => .error e
      | .ok rs => .ok (c2 :: rs)

/-- `process_worksheet` as reachable from outside: the module import
fails first; had it imported, the first processed cell would raise. -/
def process_worksheet (cols : List (List String)) : Except PyCallErr (List (List String)) :=
  if worksheetsImportOk then processWorksheetCells cols
  else .error PyCallErr.importError

end Worksheets

/-! ## Supporting lemmas for the claims -/

theorem getNestedGo_none : ∀ parts : List String,
    Tmpl.getNestedGo PyVal.none parts = PyVal.none := by
  intro parts
  cases parts with
  | nil => rfl
  | cons p rest => rfl

theorem autoCall_not_callable {v : PyVal} (h : v.isCallable = false) :
    Tmpl.autoCall v = v := by
  cases v <;> simp_all [Tmpl.autoCall, PyVal.isCallable]

theorem getNestedGo_dict_cons (es : List (String × PyVal)) (p : String) (rest : List String) :
    Tmpl.getNestedGo (PyVal.dict es) (p :: rest)
      = Tmpl.getNestedGo (Tmpl.autoCall (Tmpl.lookupPart (PyVal.dict es) p)) rest := rfl

theorem getNestedGo_obj_cons (nm sr : String) (hm : Bool) (attrs : List (String × PyVal)) (p : String) (rest : List String) :
    Tmpl.getNestedGo (PyVal.obj nm sr hm attrs) (p :: rest)
      = Tmpl.getNestedGo (Tmpl.autoCall (Tmpl.lookupPart (PyVal.obj nm sr hm attrs) p)) rest := rfl

/-! ## Claims -/

/-- C9: the attribute resolver `get_nested_attr` of `templating.py` is a
total function of the value model (the only potentially-raising step, the
auto-invocation, is wrapped in `try/except` in the source and modelled by
`autoCall`): it splits the name on `__`; a `null` current value gives
`null`; a missing part (mapping key lookup for mappings, reflective
attribute access otherwise) gives `null`; a callable result is
auto-invoked, a raising or wrong-arity invocation being swallowed into
`null`. -/
theorem claim_C9 :
    (∀ attr : String, Tmpl.get_nested_attr PyVal.none attr = PyVal.none)
    ∧ (∀ (obj : PyVal) (attr : String),
        Tmpl.get_nested_attr obj attr = Tmpl.getNestedGo obj (pySplit attr "__"))
    ∧ (∀ parts : List String, Tmpl.getNestedGo PyVal.none parts = PyVal.none)
    ∧ (∀ (es : List (String × PyVal)) (p : String) (rest : List String),
        PyVal.lookupKey es p = Option.none →
        Tmpl.getNestedGo (PyVal.dict es) (p :: rest) = PyVal.none)
    ∧ (∀ (nm sr : String) (hm : Bool) (attrs : List (String × PyVal)) (p : String) (rest : List String),
        PyVal.lookupKey attrs p = Option.none →
        Tmpl.getNestedGo (PyVal.obj nm sr hm attrs) (p :: rest) = PyVal.none)
    ∧ (∀ (es : List (String × PyVal)) (p : String) (rest : List String) (v : PyVal),
        PyVal.lookupKey es p = some v → v.isCallable = false →
        Tmpl.getNestedGo (PyVal.dict es) (p :: rest) = Tmpl.getNestedGo v rest)
    ∧ (∀ (es : List (String × PyVal)) (p : String) (rest : List String) (r : PyVal),
        PyVal.lookupKey es p = some (PyVal.fn 0 (some r)) →
        Tmpl.getNestedGo (PyVal.dict es) (p :: rest) = Tmpl.getNestedGo r rest)
    ∧ (∀ (es : List (String × PyVal)) (p : String) (rest : List String) (argc : Nat) (res : Option PyVal),
        PyVal.lookupKey es p = some (PyVal.fn argc res) → (argc ≠ 0 ∨ res = Option.none) →
        Tmpl.getNestedGo (PyVal.dict es) (p :: rest) = PyVal.none) := by
  refine ⟨?_, ?_, ?_, ?_, ?_, ?_, ?_, ?_⟩
  · intro attr
    unfold Tmpl.get_nested_attr
    exact getNestedGo_none _
  · intro obj attr
    rfl
  · exact getNestedGo_none
  · intro es p rest h
    rw [getNestedGo_dict_cons]
    simp only [Tmpl.lookupPart, h, Option.getD_none]
    have : Tmpl.autoCall PyVal.none = PyVal.none := rfl
    rw [this]
    exact getNestedGo_none _
  · intro nm sr hm attrs p rest h
    rw [getNestedGo_obj_cons]
    simp only [Tmpl.lookupPart, h, Option.getD_none]
    have : Tmpl.autoCall PyVal.none = PyVal.none := rfl
    rw [this]
    exact getNestedGo_none _
  · intro es p rest v h hnc
    rw [getNestedGo_dict_cons]
    simp only [Tmpl.lookupPart, h, Option.getD_some]
    rw [autoCall_not_callable hnc]
  · intro es p rest r h
    rw [getNestedGo_dict_cons]
    simp only [Tmpl.lookupPart, h, Option.getD_some]
    rfl
  · intro es p rest argc res h hbad
    rw [getNestedGo_dict_cons]
    simp only [Tmpl.lookupPart, h, Option.getD_some]
    have : Tmpl.autoCall (PyVal.fn argc res) = PyVal.none := by
      cases argc with
      | zero =>
        cases res with
        | none => rfl
        | some r =>
          rcases hbad with h1 | h2
          · exact absurd rfl h1
          · cases h2
      | succ k => rfl
    rw [this]
    exact getNestedGo_none _

/-- Witness for C9: a callable attribute of arity 0 returning 7 is
auto-invoked during the chain walk. -/
theorem claim_C9_witness :
    Tmpl.getNestedGo (PyVal.dict [("a", PyVal.fn 0 (some (PyVal.int 7)))]) ["a"]
      = Tmpl.getNestedGo (PyVal.int 7) [] :=
  claim_C9.2.2.2.2.2.2.1 [("a", PyVal.fn 0 (some (PyVal.int 7)))] "a" [] (PyVal.int 7) rfl

/-- C10: `process_worksheet` cannot complete normally: the module
imports the name `CellOverwriteError`, which `office_renderer/exceptions.py`
does not define (so importing the module raises), and its cell loop
forwards `fail_if_empty` to `process_text_list`, whose signature does not
accept that keyword (so the first processed cell would raise
`TypeError`). -/
theorem claim_C10 :
    ("fail_if_empty" ∈ Worksheets.process_worksheet_kwargs
      ∧ "fail_if_empty" ∉ Worksheets.process_text_list_params)
    ∧ "CellOverwriteError" ∉ Worksheets.office_renderer_exception_names
    ∧ Worksheets.worksheetsImportOk = false
    ∧ (∀ cols : List (List String),
        Worksheets.process_worksheet cols = Except.error Worksheets.PyCallErr.importError)
    ∧ (∀ cols : List (List String), (∃ col ∈ cols, col ≠ []) →
        Worksheets.processWorksheetCells cols
          = Except.error Worksheets.PyCallErr.typeErrorUnexpectedKwarg) := by
  refine ⟨⟨by decide, by decide⟩, by decide, by decide, ?_, ?_⟩
  · intro cols
    simp [Worksheets.process_worksheet, show Worksheets.worksheetsImportOk = false from by decide]
  · intro cols hex
    induction cols with
    | nil => simp at hex
    | cons col rest ih =>
      cases col with
      | nil =>
        have hex2 : ∃ c ∈ rest, c ≠ [] := by
          rcases hex with ⟨c, hc, hne⟩
          rcases List.mem_cons.mp hc with hc | hc
          · exact absurd hc hne
          · exact ⟨c, hc, hne⟩
        have := ih hex2
        simp [Worksheets.processWorksheetCells, Worksheets.processCellsCol, this]
      | cons cell cells =>
        have hcall : Worksheets.callProcessTextList Worksheets.process_worksheet_kwargs cell
            = Except.error Worksheets.PyCallErr.typeErrorUnexpectedKwarg := rfl
        simp [Worksheets.processWorksheetCells, Worksheets.processCellsCol, hcall]

/-- Witness for C10: a one-cell worksheet. -/
theorem claim_C10_witness :
    Worksheets.processWorksheetCells [["v"]]
      = Except.error Worksheets.PyCallErr.typeErrorUnexpectedKwarg :=
  claim_C10.2.2.2.2 [["v"]] ⟨["v"], by simp⟩

/-- C4: the renderer gathers the resolution errors of every shape of
every slide (no early exit: a later span of slides contributes its errors
regardless of earlier ones), and afterwards: with at least one error the
document is not saved and no output location is produced (the legacy
entry point raises `UnresolvedTagError` instead of returning `None`);
with no errors the document is saved and the output location returned. -/
theorem claim_C4 {α : Type} (f : α → List String) (doc : List (List α)) (out : String) :
    (∀ doc2 : List (List α),
      Renderer.collectErrors f (doc ++ doc2)
        = Renderer.collectErrors f doc ++ Renderer.collectErrors f doc2)
    ∧ (Renderer.collectErrors f doc ≠ [] →
        Renderer.render_pptx f doc out = (Option.none, false, Renderer.collectErrors f doc)
        ∧ Renderer.render_pptx_legacy f doc out
            = (Except.error "UnresolvedTagError", false, Renderer.collectErrors f doc))
    ∧ (Renderer.collectErrors f doc = [] →
        Renderer.render_pptx f doc out = (some out, true, Renderer.collectErrors f doc)
        ∧ Renderer.render_pptx_legacy f doc out
            = (Except.ok out, true, Renderer.collectErrors f doc)) := by
  refine ⟨?_, ?_, ?_⟩
  · intro doc2
    simp [Renderer.collectErrors]
  · intro hne
    have hE : (Renderer.collectErrors f doc).isEmpty = false := by
      cases hce : Renderer.collectErrors f doc with
      | nil => exact absurd hce hne
      | cons a l => simp
    constructor
    · simp [Renderer.render_pptx, hE]
    · simp [Renderer.render_pptx_legacy, hE]
  · intro hem
    constructor
    · simp [Renderer.render_pptx, hem]
    · simp [Renderer.render_pptx_legacy, hem]

/-- Witness for C4: a document with one error-producing shape is not
saved; an error-free document is saved. -/
theorem claim_C4_witness :
    (Renderer.render_pptx (fun s => [s]) [["boom"]] "out.pptx"
        = (Option.none, false, ["boom"])
      ∧ Renderer.render_pptx_legacy (fun s => [s]) [["boom"]] "out.pptx"
        = (Except.error "UnresolvedTagError", false, ["boom"]))
    ∧ (Renderer.render_pptx (fun _ => []) [["ok"]] "out.pptx"
        = (some "out.pptx", true, [])
      ∧ Renderer.render_pptx_legacy (fun _ => []) [["ok"]] "out.pptx"
        = (Except.ok "out.pptx", true, [])) :=
  ⟨(claim_C4 (fun s => [s]) [["boom"]] "out.pptx").2.1 (by simp [Renderer.collectErrors]),
   (claim_C4 (fun _ => ([] : List String)) [["ok"]] "out.pptx").2.2 (by simp [Renderer.collectErrors])⟩

/-- C3 (code bug): with a single-item list and any following row that has
a cell in the target column, `fill_column_with_list` cannot succeed: an
empty cell below makes it pop from an empty `remaining_items` list
(Python `IndexError`), and an occupied cell below raises
`TableCellOverwriteError` even though no items remain to be placed — in
both cases the claim (and the function's own docstring, which only fills
rows "for subsequent items") expects the fill to finish with the single
item in the source cell.  The multi-item path behaves as the claim
describes (third conjunct). -/
theorem claim_C3 :
    Tables.fill_column_with_list [["\x7b\x7b emails \x7d\x7d"], [""]] 0 0 ["a"]
      = Except.error Tables.TblErr.indexError
    ∧ Tables.fill_column_with_list [["\x7b\x7b emails \x7d\x7d"], ["occupied"]] 0 0 ["a"]
      = Except.error Tables.TblErr.cellOverwrite
    ∧ Tables.fill_column_with_list [["\x7b\x7b emails \x7d\x7d"], [""]] 0 0 ["a", "b", "c"]
      = Except.ok [["a"], ["b"], ["c"]] := ⟨rfl, rfl, rfl⟩

/-- Counterexample to C7 as stated: on `now.year` the parser returns the
raw current time (`dt 5`) instead of walking the `year` segment from it —
the spec-walked value (second definition, written from the spec's words)
is `""` here (the model datetime exposes no `year` attribute, and a
`None` segment result yields `""`), and in no case the raw timestamp. -/
theorem claim_C7_counterexample :
    ParserPy.resolve_tag_expression 5 "now.year" [] Option.none = Except.ok (PyVal.dt 5)
    ∧ ParserPy.resolveTagExpressionSpecC7 5 "now.year" [] Option.none = Except.ok (PyVal.str "")
    ∧ PyVal.dt 5 ≠ PyVal.str "" :=
  ⟨rfl, rfl, fun h => PyVal.noConfusion h⟩

/-- C7 (amended): when the first segment strips to `now` (and the
expression passes the segment sanity checks), the parser returns the
current time *immediately*, discarding any remaining segments — e.g.
`now.year` yields the raw timestamp, not its `year`. -/
theorem claim_C7 (now : Nat) (expr : String) (context : List (String × PyVal)) (pu : Option Principal)
    (s0 : String) (rest : List String)
    (hsplit : Tmpl.split_expression expr = s0 :: rest)
    (hne : s0 ≠ "")
    (hbad : (s0 :: rest).any ParserPy.isBadSegment = false)
    (hnow : pyStrip s0 = "now") :
    ParserPy.resolve_tag_expression now expr context pu = Except.ok (PyVal.dt now) := by
  unfold ParserPy.resolve_tag_expression
  rw [hsplit]
  simp [hne, hbad, hnow]

/-- Witness for C7: `now.year` with the hypotheses discharged. -/
theorem claim_C7_witness :
    ParserPy.resolve_tag_expression 3 "now.year" [] Option.none = Except.ok (PyVal.dt 3) :=
  claim_C7 3 "now.year" [] Option.none "now" ["year"] rfl (by decide) (by decide) rfl

/-- The scalar (non-queryset, non-list) filtering arm of the parser
`resolve_segment`: the value is wrapped into a singleton list and
filtered; the result stays a list. -/
theorem resolveSegFilterStage_scalar (value : PyVal) (f : String) (pu : Option Principal)
    (hq : value.isQueryset = false) (hl : value.isList = false) (hf : f ≠ "") :
    ParserPy.resolveSegFilterStage value (some f) pu
      = PyVal.list ([value].filter (fun it =>
          ((pySplit f ",").map pyStrip).all (fun c => Tmpl.evaluate_condition it c))) := by
  cases value <;> simp_all [ParserPy.resolveSegFilterStage, PyVal.isQueryset, PyVal.isList]

/-- Counterexample to C6 as stated: resolving the filtered segment
`a[b=1]` on a mapping whose `a` is itself a mapping (a scalar for the
engine: not a list, no `filter` capability) returns the *list*
`[{b: 1}]` — the wrapped value is never unwrapped back to a scalar. -/
theorem claim_C6_counterexample :
    ParserPy.resolve_segment (PyVal.dict [("a", PyVal.dict [("b", PyVal.int 1)])]) "a[b=1]" Option.none
      = Except.ok (PyVal.list [PyVal.dict [("b", PyVal.int 1)]])
    ∧ PyVal.isList (ParserPy.resolverGetNestedAttr
        (PyVal.dict [("a", PyVal.dict [("b", PyVal.int 1)])]) "a") = false
    ∧ PyVal.isQueryset (ParserPy.resolverGetNestedAttr
        (PyVal.dict [("a", PyVal.dict [("b", PyVal.int 1)])]) "a") = false
    ∧ PyVal.isList (PyVal.list [PyVal.dict [("b", PyVal.int 1)]]) = true :=
  ⟨rfl, rfl, rfl, rfl⟩

/-- C6 (amended): for a segment with a nonempty filter whose current
value is a scalar (not a list, not filter-capable), `resolve_segment`
wraps the scalar into a singleton list, filters it element-wise, and
returns the resulting list (empty or singleton) *without* unwrapping —
the result is always a list. -/
theorem claim_C6 (current : PyVal) (seg attrName f : String) (pu : Option Principal)
    (hc1 : countChar seg '(' = countChar seg ')')
    (hc2 : countChar seg '[' = countChar seg ']')
    (hseg : ParserPy.parseSegmentP seg = some (attrName, Option.none, some f))
    (hf : f ≠ "")
    (hcl : PyVal.isList current = false)
    (hvl : PyVal.isList (ParserPy.resolverGetNestedAttr current attrName) = false)
    (hvq : PyVal.isQueryset (ParserPy.resolverGetNestedAttr current attrName) = false) :
    ParserPy.resolve_segment current seg pu
      = Except.ok (PyVal.list ([ParserPy.resolverGetNestedAttr current attrName].filter
          (fun it => ((pySplit f ",").map pyStrip).all (fun c => Tmpl.evaluate_condition it c))))
    ∧ ∀ r : PyVal, ParserPy.resolve_segment current seg pu = Except.ok r → r.isList = true := by
  have hmain : ParserPy.resolve_segment current seg pu
      = Except.ok (PyVal.list ([ParserPy.resolverGetNestedAttr current attrName].filter
          (fun it => ((pySplit f ",").map pyStrip).all (fun c => Tmpl.evaluate_condition it c)))) := by
    rw [ParserPy.resolve_segment]
    simp only [hc1, hc2, ne_eq, not_true_eq_false, if_false, hseg]
    have hcore : ∀ v : PyVal, v.isList = false →
        (match v with
         | PyVal.list items =>
           (match ParserPy.resolveSegList items seg pu with
            | .error e => .error e
            | .ok rs => .ok (PyVal.list rs))
         | cur => ParserPy.resolveSegCoreP cur attrName Option.none (some f) pu)
          = ParserPy.resolveSegCoreP v attrName Option.none (some f) pu := by
      intro v hv
      cases v <;> simp_all [PyVal.isList]
    rw [hcore current hcl]
    rw [ParserPy.resolveSegCoreP]
    rw [resolveSegFilterStage_scalar _ _ _ hvq hvl hf]
  refine ⟨hmain, ?_⟩
  intro r hr
  rw [hmain] at hr
  cases hr
  rfl

theorem map_congr_fun {α β : Type} (l : List α) (f g : α → β)
    (h : ∀ a, f a = g a) : l.map f = l.map g := by
  induction l with
  | nil => rfl
  | cons x xs ih => simp [h, ih]

theorem flatMap_congr_fun {α β : Type} (l : List α) (f g : α → List β)
    (h : ∀ a, f a = g a) : l.flatMap f = l.flatMap g := by
  induction l with
  | nil => rfl
  | cons x xs ih => simp [h, ih]

theorem enumFrom_add {α : Type} (l : List α) : ∀ (k n : Nat),
    List.enumFrom (k + n) l = (List.enumFrom k l).map (fun p => (p.1 + n, p.2)) := by
  induction l with
  | nil => intro k n; rfl
  | cons x xs ih =>
    intro k n
    simp only [List.enumFrom, List.map_cons]
    congr 1
    have harith : k + n + 1 = k + 1 + n := by omega
    rw [harith]
    exact ih (k + 1) n

theorem enumFrom_eq_enum_map {α : Type} (l : List α) (n : Nat) :
    List.enumFrom n l = l.enum.map (fun p => (p.1 + n, p.2)) := by
  have := enumFrom_add l 0 n
  simpa [List.enum] using this

theorem flatMap_length_const {α β : Type} (l : List α) (f : α → List β) (k : Nat)
    (h : ∀ a ∈ l, (f a).length = k) : (l.flatMap f).length = l.length * k := by
  induction l with
  | nil => simp
  | cons x xs ih =>
    simp only [List.flatMap_cons, List.length_append, List.length_cons]
    rw [h x (List.mem_cons_self x xs), ih (fun a ha => h a (List.mem_cons_of_mem x ha))]
    ring

theorem loopExtraContext_eq (v : String) (item : PyVal) (n i : Nat)
    (hv1 : v ≠ "loop_count") (hv2 : v ≠ "loop_number") :
    Loops.loopExtraContext v item n i
      = [(v, item), ("loop_count", PyVal.int n), ("loop_number", PyVal.int (i + 1))] := by
  simp [Loops.loopExtraContext, Loops.dictInsert, hv1, hv2]

theorem emitSlides_eq (extra : List (String × PyVal)) (isFirst : Bool) :
    ∀ (ss : List Nat) (cur : Nat),
      Loops.emitSlides extra isFirst ss cur
        = ss.enum.map (fun js =>
            { slide := if isFirst then Loops.SlideRef.orig js.2
                       else Loops.SlideRef.dup js.2 (cur + js.1 - 1),
              slideNumber := cur + js.1,
              extraContext := some extra }) := by
  intro ss
  induction ss with
  | nil => intro cur; rfl
  | cons s rest ih =>
    intro cur
    simp only [Loops.emitSlides, List.enum_cons, List.map_cons]
    congr 1
    rw [ih (cur + 1), enumFrom_eq_enum_map rest 1, List.map_map]
    apply map_congr_fun
    intro p
    simp only [Function.comp]
    have h1 : cur + 1 + p.1 = cur + (p.1 + 1) := by omega
    rw [h1]

theorem emitItems_eq (v : String) (n : Nat) (slides : List Nat) :
    ∀ (ipairs : List (Nat × PyVal)) (cur : Nat),
      Loops.emitItems v n slides ipairs cur
        = ipairs.enum.flatMap (fun jp =>
            slides.enum.map (fun js =>
              { slide := if jp.2.1 = 0 then Loops.SlideRef.orig js.2
                         else Loops.SlideRef.dup js.2 (cur + jp.1 * slides.length + js.1 - 1),
                slideNumber := cur + jp.1 * slides.length + js.1,
                extraContext := some (Loops.loopExtraContext v jp.2.2 n jp.2.1) })) := by
  intro ipairs
  induction ipairs with
  | nil => intro cur; rfl
  | cons ip rest ih =>
    intro cur
    simp only [Loops.emitItems, List.enum_cons, List.flatMap_cons]
    congr 1
    · rw [emitSlides_eq]
      apply map_congr_fun
      intro p
      simp
    · rw [ih (cur + slides.length), enumFrom_eq_enum_map rest 1, List.flatMap_map]
      apply flatMap_congr_fun
      intro jp
      simp only [Function.comp]
      apply map_congr_fun
      intro js
      have harith : cur + slides.length + jp.1 * slides.length + js.1
          = cur + (jp.1 + 1) * slides.length + js.1 := by ring
      rw [harith]

/-- C2: for a loop section of `k` buffered slides whose collection
resolved to `n ≥ 1` items (and whose loop variable does not shadow the
reserved loop identifiers), the second pass emits exactly `k·n` entries,
in collection order: the `i`-th iteration (0-based) reuses the original
slides when `i = 0` and duplicates them at the current position
otherwise, and every entry carries the extra context
`{var: item_i, loop_count: n, loop_number: i+1}`. -/
theorem claim_C2 (v : String) (items : List PyVal) (slides : List Nat) (startNum : Nat)
    (hn : items ≠ []) (hv1 : v ≠ "loop_count") (hv2 : v ≠ "loop_number") :
    ∃ entries : List Loops.SlideEntry,
      Loops.emitSection ⟨slides, some v, some items⟩ startNum
          = some (entries, startNum + entries.length)
      ∧ entries.length = slides.length * items.length
      ∧ entries = items.enum.flatMap (fun ip =>
          slides.enum.map (fun js =>
            { slide := if ip.1 = 0 then Loops.SlideRef.orig js.2
                       else Loops.SlideRef.dup js.2 (startNum + ip.1 * slides.length + js.1 - 1),
              slideNumber := startNum + ip.1 * slides.length + js.1,
              extraContext := some [(v, ip.2), ("loop_count", PyVal.int items.length),
                                    ("loop_number", PyVal.int (ip.1 + 1))] })) := by
  refine ⟨Loops.emitItems v items.length slides items.enum startNum, rfl, ?_, ?_⟩
  · rw [emitItems_eq]
    rw [flatMap_length_const _ _ slides.length (fun a _ => by simp)]
    simp [List.enum_length, Nat.mul_comm]
  · rw [emitItems_eq]
    have henum : (items.enum).enum = items.enum.map (fun p => (p.1, p)) := by
      have hgen : ∀ (l : List PyVal) (m : Nat),
          List.enumFrom m (List.enumFrom m l) = (List.enumFrom m l).map (fun p => (p.1, p)) := by
        intro l
        induction l with
        | nil => intro m; rfl
        | cons x xs ih => intro m; simp [List.enumFrom, ih (m + 1)]
      simpa [List.enum] using hgen items 0
    rw [henum, List.flatMap_map]
    apply flatMap_congr_fun
    intro ip
    simp only [Function.comp]
    apply map_congr_fun
    intro js
    rw [loopExtraContext_eq v ip.2 items.length ip.1 hv1 hv2]

theorem contains_false_not_mem {l : List String} {k : String}
    (h : l.contains k = false) : k ∉ l := by
  intro hmem
  rw [show l.contains k = l.elem k from rfl, List.elem_eq_mem] at h
  simp [hmem] at h

theorem sortDedup_sorted (l : List String) :
    (Extractor.sortDedup l).Sorted (fun a b => a ≤ b) :=
  List.sorted_insertionSort _ _

theorem sortDedup_nodup (l : List String) : (Extractor.sortDedup l).Nodup := by
  have hperm : List.Perm l.dedup (List.insertionSort (fun a b => a ≤ b) l.dedup) :=
    (List.perm_insertionSort _ _).symm
  exact hperm.nodup (List.nodup_dedup l)

theorem mem_sortDedup {l : List String} {k : String}
    (h : k ∈ Extractor.sortDedup l) : k ∈ l :=
  List.mem_dedup.mp ((List.perm_insertionSort (fun a b => a ≤ b) l.dedup).mem_iff.mp h)

theorem classifyStep_mem (acc : List String × List String) (ph : String) :
    (∀ k ∈ (Extractor.classifyStep acc ph).1,
      k ∈ acc.1 ∨ Extractor.KEYS_TO_IGNORE.contains k = false)
    ∧ (∀ k ∈ (Extractor.classifyStep acc ph).2,
      k ∈ acc.2 ∨ Extractor.KEYS_TO_IGNORE.contains k = false) := by
  unfold Extractor.classifyStep
  by_cases hph : ph ≠ ""
  · simp only [if_pos hph]
    cases hkey : Extractor.keyOfPlaceholder ph with
    | none => exact ⟨fun k hk => Or.inl hk, fun k hk => Or.inl hk⟩
    | some key =>
      by_cases hig : Extractor.KEYS_TO_IGNORE.contains key = true
      · simp only [hig, if_true]
        exact ⟨fun k hk => Or.inl hk, fun k hk => Or.inl hk⟩
      · simp only [hig, if_false]
        by_cases hobj : (subInStr "." ph || subInStr "[" ph) = true
        · simp only [hobj, if_true]
          refine ⟨fun k hk => Or.inl hk, fun k hk => ?_⟩
          rcases List.mem_append.mp hk with hk | hk
          · exact Or.inl hk
          · simp only [List.mem_singleton] at hk
            subst hk
            exact Or.inr (by simpa using hig)
        · simp only [hobj, if_false]
          refine ⟨fun k hk => ?_, fun k hk => Or.inl hk⟩
          rcases List.mem_append.mp hk with hk | hk
          · exact Or.inl hk
          · simp only [List.mem_singleton] at hk
            subst hk
            exact Or.inr (by simpa using hig)
  · simp only [if_neg hph]
    exact ⟨fun k hk => Or.inl hk, fun k hk => Or.inl hk⟩

theorem classifyFold_not_ignored : ∀ (phs : List String) (acc : List String × List String),
    (∀ k ∈ acc.1, Extractor.KEYS_TO_IGNORE.contains k = false) →
    (∀ k ∈ acc.2, Extractor.KEYS_TO_IGNORE.contains k = false) →
    (∀ k ∈ (phs.foldl Extractor.classifyStep acc).1,
        Extractor.KEYS_TO_IGNORE.contains k = false)
    ∧ (∀ k ∈ (phs.foldl Extractor.classifyStep acc).2,
        Extractor.KEYS_TO_IGNORE.contains k = false) := by
  intro phs
  induction phs with
  | nil => intro acc h1 h2; exact ⟨h1, h2⟩
  | cons ph rest ih =>
    intro acc h1 h2
    simp only [List.foldl_cons]
    apply ih
    · intro k hk
      rcases (classifyStep_mem acc ph).1 k hk with hk2 | hk2
      · exact h1 k hk2
      · exact hk2
    · intro k hk
      rcases (classifyStep_mem acc ph).2 k hk with hk2 | hk2
      · exact h2 k hk2
      · exact hk2

theorem classifyKeys_not_ignored (phs : List String) :
    (∀ k ∈ (Extractor.classifyKeys phs).1,
        Extractor.KEYS_TO_IGNORE.contains k = false)
    ∧ (∀ k ∈ (Extractor.classifyKeys phs).2,
        Extractor.KEYS_TO_IGNORE.contains k = false) :=
  classifyFold_not_ignored phs ([], []) (by simp) (by simp)

/-- Counterexample to C8 as stated: a deck declaring the loop variable
`u` and using `\x7b\x7b u \x7d\x7d` as a bare placeholder reports `u`
in `simple_fields` — the source subtracts loop variables only from
`object_fields`. -/
theorem claim_C8_counterexample :
    Extractor.extract_context_keys
        [Extractor.OfficeShape.textFrame ["%loop u in team.members%"],
         Extractor.OfficeShape.textFrame ["\x7b\x7b u \x7d\x7d"]]
      = (["u"], [])
    ∧ Extractor.declaredLoopVars
        [Extractor.OfficeShape.textFrame ["%loop u in team.members%"],
         Extractor.OfficeShape.textFrame ["\x7b\x7b u \x7d\x7d"]]
      = ["u"] := ⟨rfl, rfl⟩

/-- C8 (amended): both lists returned by `extract_context_keys` are
sorted and duplicate-free and contain no reserved identifier;
`object_fields` (but only it) additionally contains no identifier
declared as a loop variable by a loop-start sentinel. -/
theorem claim_C8 (shapes : List Extractor.OfficeShape) :
    (Extractor.extract_context_keys shapes).1.Sorted (fun a b => a ≤ b)
    ∧ (Extractor.extract_context_keys shapes).1.Nodup
    ∧ (Extractor.extract_context_keys shapes).2.Sorted (fun a b => a ≤ b)
    ∧ (Extractor.extract_context_keys shapes).2.Nodup
    ∧ (∀ k ∈ (Extractor.extract_context_keys shapes).1,
        k ∉ Extractor.KEYS_TO_IGNORE)
    ∧ (∀ k ∈ (Extractor.extract_context_keys shapes).2,
        k ∉ Extractor.KEYS_TO_IGNORE ∧ k ∉ Extractor.declaredLoopVars shapes) := by
  refine ⟨sortDedup_sorted _, sortDedup_nodup _, sortDedup_sorted _, sortDedup_nodup _, ?_, ?_⟩
  · intro k hk
    have hk2 := mem_sortDedup hk
    rcases List.mem_flatMap.mp hk2 with ⟨pr, hpr, hkk⟩
    rcases List.mem_map.mp hpr with ⟨text, _, htext⟩
    subst htext
    have hmem : k ∈ (Extractor.classifyKeys ((Extractor.collectTags text.data).map pyStrip)).1 :=
      mem_sortDedup hkk
    exact contains_false_not_mem ((classifyKeys_not_ignored _).1 k hmem)
  · intro k hk
    have hk2 := mem_sortDedup hk
    rcases List.mem_filter.mp hk2 with ⟨hkin, hknotloop⟩
    constructor
    · rcases List.mem_flatMap.mp hkin with ⟨pr, hpr, hkk⟩
      rcases List.mem_map.mp hpr with ⟨text, _, htext⟩
      subst htext
      have hmem : k ∈ (Extractor.classifyKeys ((Extractor.collectTags text.data).map pyStrip)).2 :=
        mem_sortDedup hkk
      exact contains_false_not_mem ((classifyKeys_not_ignored _).2 k hmem)
    · exact contains_false_not_mem (by simpa using hknotloop)

/-- Concatenation of a list of strings (`"".join`). -/
def concatAll : List String → String
  | [] => ""
  | s :: rest => s ++ concatAll rest

/-- The trigger condition of claim C5 read literally: some occurrence of
`{{` in the character list has no occurrence of `}}` after it. -/
def hasUnclosedOpen : List Char → Bool
  | [] => false
  | c :: rest =>
    if c = '{' ∧ rest.head? = some '{' then
      (if subIn closePat rest.tail then hasUnclosedOpen rest else true)
    else hasUnclosedOpen rest

theorem scanForClose_none_iff (l : List String) :
    Merger.scanForClose l = Option.none ↔ ∀ r ∈ l, subInStr closeTok r = false := by
  induction l with
  | nil => simp [Merger.scanForClose]
  | cons r rest ih =>
    by_cases hc : subInStr closeTok r = true
    · simp [Merger.scanForClose, hc]
    · have hcf : subInStr closeTok r = false := by simpa using hc
      rw [Merger.scanForClose, if_neg (by simp [hcf])]
      constructor
      · intro h
        have h2 : Merger.scanForClose rest = Option.none := by
          cases hsc : Merger.scanForClose rest with
          | none => rfl
          | some sr => rw [hsc] at h; simp at h
        intro r2 hr2
        rcases List.mem_cons.mp hr2 with he | he
        · subst he; exact hcf
        · exact (ih.mp h2) r2 he
      · intro h
        have h2 : Merger.scanForClose rest = Option.none :=
          ih.mpr (fun r2 hr2 => h r2 (List.mem_cons_of_mem _ hr2))
        rw [h2]
        rfl

theorem scanForClose_decomp : ∀ (mids : List String) (closer : String) (post : List String),
    (∀ m ∈ mids, subInStr closeTok m = false) → subInStr closeTok closer = true →
    Merger.scanForClose (mids ++ closer :: post) = some (concatAll mids ++ closer, post) := by
  intro mids
  induction mids with
  | nil =>
    intro closer post _ hc
    rw [List.nil_append, Merger.scanForClose, if_pos (by simp [hc])]
    have : concatAll [] ++ closer = closer := by
      show "" ++ closer = closer
      exact String.ext (by simp)
    rw [this]
  | cons m mids ih =>
    intro closer post hm hc
    have hmf : subInStr closeTok m = false := hm m (by simp)
    rw [List.cons_append, Merger.scanForClose, if_neg (by simp [hmf])]
    rw [ih closer post (fun x hx => hm x (by simp [hx])) hc]
    simp only [Option.map_some']
    have : m ++ (concatAll mids ++ closer) = concatAll (m :: mids) ++ closer := by
      show m ++ (concatAll mids ++ closer) = (m ++ concatAll mids) ++ closer
      rw [String.append_assoc]
    rw [this]

theorem scanForClose_some_decomp : ∀ (l : List String) (s : String) (rem : List String),
    Merger.scanForClose l = some (s, rem) →
    ∃ mids closer, l = mids ++ closer :: rem
      ∧ (∀ m ∈ mids, subInStr closeTok m = false)
      ∧ subInStr closeTok closer = true := by
  intro l
  induction l with
  | nil => intro s rem h; simp [Merger.scanForClose] at h
  | cons r rest ih =>
    intro s rem h
    by_cases hc : subInStr closeTok r = true
    · rw [Merger.scanForClose, if_pos (by simp [hc])] at h
      cases h
      exact ⟨[], r, by simp, by simp, hc⟩
    · rw [Merger.scanForClose, if_neg (by simp [hc])] at h
      cases hsc : Merger.scanForClose rest with
      | none => rw [hsc] at h; simp at h
      | some sr =>
        rw [hsc] at h
        simp only [Option.map_some'] at h
        cases h
        rcases ih sr.1 sr.2 (by simpa using hsc) with ⟨mids, closer, heq, hmids, hcl⟩
        refine ⟨r :: mids, closer, by simp [heq], ?_, hcl⟩
        intro m hm
        rcases List.mem_cons.mp hm with he | he
        · subst he; simpa using hc
        · exact hmids m he

/-- If the first close-run of a list sits strictly before a close-free
run `cur` whose tail `post` is also close-free, then the remainder after
that first close-run still ends in `cur :: post`, with a strictly
shorter prefix. -/
theorem first_close_suffix {pre2 post mids rem : List String} {cur closer : String}
    (heq : pre2 ++ cur :: post = mids ++ closer :: rem)
    (hmids : ∀ m ∈ mids, subInStr closeTok m = false)
    (hcl : subInStr closeTok closer = true)
    (hcur : subInStr closeTok cur = false)
    (hpost : ∀ r ∈ post, subInStr closeTok r = false) :
    ∃ pre3 : List String, rem = pre3 ++ cur :: post ∧ pre3.length < pre2.length := by
  have hlt : mids.length < pre2.length := by
    by_contra hge
    push_neg at hge
    rcases Nat.lt_or_ge pre2.length mids.length with hlt2 | hge2
    · -- closer would land inside post
      have hdrop : post = mids.drop (pre2.length + 1) ++ closer :: rem := by
        have h1 : (pre2 ++ cur :: post).drop (pre2.length + 1) = post := by
          rw [show pre2.length + 1 = (pre2 ++ [cur]).length by simp]
          rw [show pre2 ++ cur :: post = (pre2 ++ [cur]) ++ post by simp]
          exact List.drop_left _ _
        have h2 : (mids ++ closer :: rem).drop (pre2.length + 1)
            = mids.drop (pre2.length + 1) ++ closer :: rem := by
          exact List.drop_append_of_le_length (by omega)
        rw [← h1, heq, h2]
      have hmem : closer ∈ post := by
        rw [hdrop]
        exact List.mem_append.mpr (Or.inr (by simp))
      have := hpost closer hmem
      rw [this] at hcl
      cases hcl
    · -- equal lengths: cur = closer
      have heq2 : pre2.length = mids.length := by omega
      have h1 : (pre2 ++ cur :: post).drop pre2.length = cur :: post := List.drop_left _ _
      have h2 : (mids ++ closer :: rem).drop mids.length = closer :: rem := List.drop_left _ _
      rw [heq, heq2, h2] at h1
      have : closer = cur := by
        have := congrArg List.head? h1
        simpa using this
      rw [this, hcur] at hcl
      cases hcl
  have hrem : rem = (pre2 ++ cur :: post).drop (mids.length + 1) := by
    have h2 : (mids ++ closer :: rem).drop (mids.length + 1) = rem := by
      rw [show mids.length + 1 = (mids ++ [closer]).length by simp]
      rw [show mids ++ closer :: rem = (mids ++ [closer]) ++ rem by simp]
      exact (List.drop_left _ _).symm ▸ rfl
    rw [heq, h2]
  have hsuffix : rem.drop (pre2.length - mids.length - 1) = cur :: post := by
    rw [hrem, List.drop_drop]
    rw [show mids.length + 1 + (pre2.length - mids.length - 1) = pre2.length by omega]
    exact List.drop_left _ _
  refine ⟨rem.take (pre2.length - mids.length - 1), ?_, ?_⟩
  · rw [← hsuffix]
    exact (List.take_append_drop _ _).symm
  · have := List.length_take (pre2.length - mids.length - 1) rem
    omega

end TemplateReports

namespace TemplateReports

/-- Unterminated-merge evaluation: the raise direction of C5 — if a run
satisfying the merge condition is reached whose following runs contain no
`}}`, the merger raises. -/
theorem merge_error_of_decomp (ctx : List (String × PyVal)) (ru : Option Principal) (cp : Bool) :
    ∀ (nn : Nat) (pre : List String), pre.length ≤ nn →
    ∀ (cur : String) (post : List String) (errs : List String),
      subInStr openTok cur = true → subInStr closeTok cur = false →
      (∀ r ∈ post, subInStr closeTok r = false) →
      Merger.merge_runs_in_paragraph (pre ++ cur :: post) ctx errs ru cp = Except.error () := by
  intro nn
  induction nn with
  | zero =>
    intro pre hlen cur post errs hopen hclose hpost
    have : pre = [] := List.eq_nil_of_length_eq_zero (Nat.le_zero.mp hlen)
    subst this
    rw [List.nil_append, Merger.merge_runs_in_paragraph, if_pos (by simp [hopen, hclose])]
    rw [(scanForClose_none_iff post).mpr hpost]
  | succ nn ih =>
    intro pre hlen cur post errs hopen hclose hpost
    cases pre with
    | nil =>
      rw [List.nil_append, Merger.merge_runs_in_paragraph, if_pos (by simp [hopen, hclose])]
      rw [(scanForClose_none_iff post).mpr hpost]
    | cons p0 pre2 =>
      rw [List.cons_append, Merger.merge_runs_in_paragraph]
      by_cases hcond : (subInStr openTok p0 = true ∧ ¬ subInStr closeTok p0 = true)
      · rw [if_pos hcond]
        split
        · rfl
        · rename_i sa hsc
          rcases scanForClose_some_decomp _ sa.1 sa.2 (by simpa using hsc)
            with ⟨mids, closer, heq, hmids, hcl⟩
          rcases first_close_suffix heq hmids hcl hclose hpost with ⟨pre3, hrem, hlt⟩
          have hrec := ih pre3 (by simp at hlen; omega) cur post
            (Tmpl.process_text (p0 ++ sa.1) ctx errs ru cp).2 hopen hclose hpost
          simp only [hrem] at hrec ⊢
          simp [hrec]
      · rw [if_neg hcond]
        have hrec := ih pre2 (by simp at hlen; omega) cur post
          (Tmpl.process_text p0 ctx errs ru cp).2 hopen hclose hpost
        simp [hrec]

/-- The converse direction of C5's raise condition: an error can only
come from an unterminated merge. -/
theorem merge_decomp_of_error (ctx : List (String × PyVal)) (ru : Option Principal) (cp : Bool) :
    ∀ (nn : Nat) (runs : List String), runs.length ≤ nn →
    ∀ errs : List String,
      Merger.merge_runs_in_paragraph runs ctx errs ru cp = Except.error () →
      ∃ pre cur post, runs = pre ++ cur :: post
        ∧ subInStr openTok cur = true ∧ subInStr closeTok cur = false
        ∧ ∀ r ∈ post, subInStr closeTok r = false := by
  intro nn
  induction nn with
  | zero =>
    intro runs hlen errs h
    have : runs = [] := List.eq_nil_of_length_eq_zero (Nat.le_zero.mp hlen)
    subst this
    rw [Merger.merge_runs_in_paragraph] at h
    cases h
  | succ nn ih =>
    intro runs hlen errs h
    cases runs with
    | nil =>
      rw [Merger.merge_runs_in_paragraph] at h
      cases h
    | cons cur0 rest =>
      rw [Merger.merge_runs_in_paragraph] at h
      by_cases hcond : (subInStr openTok cur0 = true ∧ ¬ subInStr closeTok cur0 = true)
      · rw [if_pos hcond] at h
        split at h
        · rename_i hsc
          refine ⟨[], cur0, rest, by simp, hcond.1, by simpa using hcond.2, ?_⟩
          exact (scanForClose_none_iff rest).mp hsc
        · rename_i sa hsc
          have herr : Merger.merge_runs_in_paragraph sa.2 ctx
              (Tmpl.process_text (cur0 ++ sa.1) ctx errs ru cp).2 ru cp = Except.error () := by
            cases hm : Merger.merge_runs_in_paragraph sa.2 ctx
                (Tmpl.process_text (cur0 ++ sa.1) ctx errs ru cp).2 ru cp with
            | error e => rfl
            | ok tl => simp only [hm] at h; cases h
          have hslen := Merger.scanForClose_length rest sa.1 sa.2 (by simpa using hsc)
          rcases ih sa.2 (by simp at hlen; omega) _ herr
            with ⟨pre2, cur, post, heq2, hopen, hclose, hpost⟩
          rcases scanForClose_some_decomp rest sa.1 sa.2 (by simpa using hsc)
            with ⟨mids, closer, heqr, _, _⟩
          refine ⟨cur0 :: mids ++ closer :: pre2, cur, post, ?_, hopen, hclose, hpost⟩
          rw [heqr, heq2]
          simp
      · rw [if_neg hcond] at h
        have herr : Merger.merge_runs_in_paragraph rest ctx
            (Tmpl.process_text cur0 ctx errs ru cp).2 ru cp = Except.error () := by
          cases hm : Merger.merge_runs_in_paragraph rest ctx
              (Tmpl.process_text cur0 ctx errs ru cp).2 ru cp with
          | error e => rfl
          | ok tl => simp only [hm] at h; cases h
        rcases ih rest (by simp at hlen; omega) _ herr
          with ⟨pre2, cur, post, heq2, hopen, hclose, hpost⟩
        exact ⟨cur0 :: pre2, cur, post, by simp [heq2], hopen, hclose, hpost⟩

/-- Counterexample to C5 as stated: the single run `"}}{{"` contains
`{{` with no *subsequent* `}}` (the `}}` precedes it), and the paragraph
is exhausted, so the claim predicts `UnterminatedTag`; but the source
condition is containment of `}}` *anywhere* in the run, so the run is
processed individually and no exception is raised. -/
theorem claim_C5_counterexample :
    subInStr openTok "\x7d\x7d\x7b\x7b" = true
    ∧ hasUnclosedOpen "\x7d\x7d\x7b\x7b".data = true
    ∧ Merger.merge_runs_in_paragraph ["\x7d\x7d\x7b\x7b"] [] [] Option.none true
        = Except.ok (["\x7d\x7d\x7b\x7b"], []) := by
  refine ⟨rfl, rfl, ?_⟩
  rw [Merger.merge_runs_in_paragraph, if_neg (by decide)]
  have h0 : ∀ e : List String,
      Merger.merge_runs_in_paragraph [] [] e Option.none true = Except.ok ([], e) :=
    fun e => by rw [Merger.merge_runs_in_paragraph]
  simp only [h0]
  rfl

/-- C5 (amended): the merger raises `UnterminatedTag` **exactly** when a
run containing `{{` and no `}}` anywhere in it is followed by no run
containing `}}` (first conjunct, both directions — so it raises in no
other case); and when such a run is followed by close-free runs up to a
closing run, the texts are concatenated into the starting run, the
merged-in runs are deleted, the merged text is processed, and scanning
continues after the closing run (second conjunct). -/
theorem claim_C5 (ctx : List (String × PyVal)) (ru : Option Principal) (cp : Bool) :
    (∀ (runs : List String) (errs : List String),
      Merger.merge_runs_in_paragraph runs ctx errs ru cp = Except.error ()
      ↔ ∃ pre cur post, runs = pre ++ cur :: post
          ∧ subInStr openTok cur = true ∧ subInStr closeTok cur = false
          ∧ ∀ r ∈ post, subInStr closeTok r = false)
    ∧ (∀ (cur closer : String) (mids post : List String) (errs : List String),
        subInStr openTok cur = true → subInStr closeTok cur = false →
        (∀ m ∈ mids, subInStr closeTok m = false) → subInStr closeTok closer = true →
        Merger.merge_runs_in_paragraph (cur :: (mids ++ closer :: post)) ctx errs ru cp
          = (match Merger.merge_runs_in_paragraph post ctx
                (Tmpl.process_text (cur ++ (concatAll mids ++ closer)) ctx errs ru cp).2 ru cp with
             | Except.error e => Except.error e
             | Except.ok tl =>
               Except.ok ((Tmpl.process_text (cur ++ (concatAll mids ++ closer)) ctx errs ru cp).1
                 :: tl.1, tl.2))) := by
  constructor
  · intro runs errs
    constructor
    · intro h
      exact merge_decomp_of_error ctx ru cp runs.length runs (Nat.le_refl _) errs h
    · rintro ⟨pre, cur, post, heq, hopen, hclose, hpost⟩
      rw [heq]
      exact merge_error_of_decomp ctx ru cp pre.length pre (Nat.le_refl _) cur post errs
        hopen hclose hpost
  · intro cur closer mids post errs hopen hclose hmids hcl
    rw [Merger.merge_runs_in_paragraph, if_pos (by simp [hopen, hclose])]
    have hsc := scanForClose_decomp mids closer post hmids hcl
    split
    · rename_i hnone
      rw [hsc] at hnone
      cases hnone
    · rename_i sa hsome
      rw [hsc] at hsome
      cases hsome
      rfl

/-- Witness for C5: a paragraph opening a tag in its first run with no
closing `}}` anywhere after it raises (via the right-to-left direction of
the iff), and the merge equation evaluated at a concrete split tag. -/
theorem claim_C5_witness :
    Merger.merge_runs_in_paragraph ["\x7b\x7b a", "b"] [] [] Option.none true
        = Except.error ()
    ∧ Merger.merge_runs_in_paragraph ["\x7b\x7b u", "ser \x7d\x7d", "tail"] [] [] Option.none true
        = (match Merger.merge_runs_in_paragraph ["tail"] []
              (Tmpl.process_text ("\x7b\x7b u" ++ (concatAll [] ++ "ser \x7d\x7d")) [] [] Option.none true).2
              Option.none true with
           | Except.error e => Except.error e
           | Except.ok tl =>
             Except.ok ((Tmpl.process_text ("\x7b\x7b u" ++ (concatAll [] ++ "ser \x7d\x7d")) [] [] Option.none true).1
               :: tl.1, tl.2)) :=
  ⟨((claim_C5 [] Option.none true).1 ["\x7b\x7b a", "b"] []).mpr
      ⟨[], "\x7b\x7b a", ["b"], rfl, rfl, rfl, by decide⟩,
   (claim_C5 [] Option.none true).2 "\x7b\x7b u" "ser \x7d\x7d" [] ["tail"] []
      rfl rfl (by simp) rfl⟩

/-- A permitted record for the permission-filter examples. -/
def demoAlice : PyVal := PyVal.obj "Alice" "Alice" true []

/-- A denied record for the permission-filter examples. -/
def demoDeny : PyVal := PyVal.obj "DenyUser" "DenyUser" true []

/-- A principal that grants `view` only to the record named `Alice`. -/
def demoPrincipal : Principal := fun v =>
  match v with
  | PyVal.obj nm _ _ _ => nm == "Alice"
  | _ => true

/-- Counterexample to C1 as stated: with one denied element among two,
the denied record is filtered out of the substitution (the rendered text
is `"Alice"` only) but **no** entry is recorded in the error accumulator
for the denial — the source appends the raw expression only when *every*
element is denied. -/
theorem claim_C1_counterexample :
    Tmpl.process_text "\x7b\x7b users \x7d\x7d"
        [("users", PyVal.list [demoAlice, demoDeny])] [] (some demoPrincipal) true
      = ("Alice", [])
    ∧ Tmpl.has_view_permission demoDeny demoPrincipal = false := ⟨rfl, rfl⟩

/-- C1 (amended): for a piped-format-free tag resolving to a collection,
with permission checking on and a non-null principal, every denied
element is removed before substitution — each surviving element satisfies
`has_perm("view", ·)` — and the raw expression is recorded in the error
accumulator only when *every* element is denied (the tag then renders
empty); when at least one element survives, the error list is unchanged,
with no entry per denial. -/
theorem claim_C1 (inner rawExpr : String) (ctx : List (String × PyVal))
    (errs : List String) (u : Principal) (xs : List PyVal)
    (hstrip : pyStrip inner = rawExpr)
    (hpipe : subInStr "|" rawExpr = false)
    (hres : Tmpl.resolve_tag_expression rawExpr ctx = PyVal.list xs) :
    (∀ v ∈ xs.filter (fun it => Tmpl.has_view_permission it u),
        Tmpl.has_view_permission v u = true)
    ∧ ((xs.filter (fun it => Tmpl.has_view_permission it u)).isEmpty = true →
        Tmpl.processTag inner ctx errs (some u) true = ("", errs ++ [rawExpr]))
    ∧ ((xs.filter (fun it => Tmpl.has_view_permission it u)).isEmpty = false →
        Tmpl.processTag inner ctx errs (some u) true
          = Tmpl.renderResolved
              (PyVal.list (xs.filter (fun it => Tmpl.has_view_permission it u))) rawExpr errs
        ∧ (Tmpl.renderResolved
              (PyVal.list (xs.filter (fun it => Tmpl.has_view_permission it u))) rawExpr errs).2
            = errs) := by
  have hbody : Tmpl.processTag inner ctx errs (some u) true
      = (if (xs.filter (fun it => Tmpl.has_view_permission it u)).isEmpty
         then ("", errs ++ [rawExpr])
         else Tmpl.renderResolved
           (PyVal.list (xs.filter (fun it => Tmpl.has_view_permission it u))) rawExpr errs) := by
    unfold Tmpl.processTag
    rw [hstrip]
    simp only [hpipe, Bool.false_eq_true, if_false, hres]
  refine ⟨?_, ?_, ?_⟩
  · intro v hv
    exact (List.mem_filter.mp hv).2
  · intro hempty
    rw [hbody, hempty]
    simp
  · intro hnonempty
    rw [hbody, hnonempty]
    refine ⟨by simp, ?_⟩
    have h1 : PyVal.pyEq
        (PyVal.list (xs.filter (fun it => Tmpl.has_view_permission it u))) (PyVal.str "")
        = false := rfl
    have h2 : (PyVal.list (xs.filter (fun it => Tmpl.has_view_permission it u))).isNone
        = false := rfl
    unfold Tmpl.renderResolved
    rw [h1, h2]
    simp

/-- Witness for C1: one denial among two records leaves the error list
unchanged. -/
theorem claim_C1_witness :
    Tmpl.processTag " users " [("users", PyVal.list [demoAlice, demoDeny])] [] (some demoPrincipal) true
      = Tmpl.renderResolved
          (PyVal.list ([demoAlice, demoDeny].filter
            (fun it => Tmpl.has_view_permission it demoPrincipal))) "users" []
    ∧ (Tmpl.renderResolved
          (PyVal.list ([demoAlice, demoDeny].filter
            (fun it => Tmpl.has_view_permission it demoPrincipal))) "users" []).2 = [] :=
  (claim_C1 " users " "users" [("users", PyVal.list [demoAlice, demoDeny])] []
    demoPrincipal [demoAlice, demoDeny] rfl rfl rfl).2.2 rfl

/-- Witness for C8: the amended claim evaluated on a one-shape deck. -/
theorem claim_C8_witness :
    (Extractor.extract_context_keys
        [Extractor.OfficeShape.textFrame ["\x7b\x7b b \x7d\x7d \x7b\x7b a.x \x7d\x7d"]]).1.Sorted
        (fun a b => a ≤ b)
    ∧ (Extractor.extract_context_keys
        [Extractor.OfficeShape.textFrame ["\x7b\x7b b \x7d\x7d \x7b\x7b a.x \x7d\x7d"]]).1.Nodup
    ∧ (Extractor.extract_context_keys
        [Extractor.OfficeShape.textFrame ["\x7b\x7b b \x7d\x7d \x7b\x7b a.x \x7d\x7d"]]).2.Sorted
        (fun a b => a ≤ b)
    ∧ (Extractor.extract_context_keys
        [Extractor.OfficeShape.textFrame ["\x7b\x7b b \x7d\x7d \x7b\x7b a.x \x7d\x7d"]]).2.Nodup
    ∧ (∀ k ∈ (Extractor.extract_context_keys
        [Extractor.OfficeShape.textFrame ["\x7b\x7b b \x7d\x7d \x7b\x7b a.x \x7d\x7d"]]).1,
        k ∉ Extractor.KEYS_TO_IGNORE)
    ∧ (∀ k ∈ (Extractor.extract_context_keys
        [Extractor.OfficeShape.textFrame ["\x7b\x7b b \x7d\x7d \x7b\x7b a.x \x7d\x7d"]]).2,
        k ∉ Extractor.KEYS_TO_IGNORE
        ∧ k ∉ Extractor.declaredLoopVars
            [Extractor.OfficeShape.textFrame ["\x7b\x7b b \x7d\x7d \x7b\x7b a.x \x7d\x7d"]]) :=
  claim_C8 [Extractor.OfficeShape.textFrame ["\x7b\x7b b \x7d\x7d \x7b\x7b a.x \x7d\x7d"]]

/-- Witness for C2: a two-slide body over a two-item collection starting
at slide number 3. -/
theorem claim_C2_witness :
    ∃ entries : List Loops.SlideEntry,
      Loops.emitSection ⟨[10, 11], some "u", some [PyVal.str "A", PyVal.str "B"]⟩ 3
          = some (entries, 3 + entries.length)
      ∧ entries.length = [10, 11].length * [PyVal.str "A", PyVal.str "B"].length
      ∧ entries = [PyVal.str "A", PyVal.str "B"].enum.flatMap (fun ip =>
          [10, 11].enum.map (fun js =>
            { slide := if ip.1 = 0 then Loops.SlideRef.orig js.2
                       else Loops.SlideRef.dup js.2 (3 + ip.1 * [10, 11].length + js.1 - 1),
              slideNumber := 3 + ip.1 * [10, 11].length + js.1,
              extraContext := some [("u", ip.2),
                                    ("loop_count", PyVal.int [PyVal.str "A", PyVal.str "B"].length),
                                    ("loop_number", PyVal.int (ip.1 + 1))] })) :=
  claim_C2 "u" [PyVal.str "A", PyVal.str "B"] [10, 11] 3 (by simp) (by decide) (by decide)

/-- Witness for C6: the counterexample input, through the amended
theorem. -/
theorem claim_C6_witness :
    ParserPy.resolve_segment (PyVal.dict [("a", PyVal.dict [("b", PyVal.int 1)])]) "a[b=1]" Option.none
      = Except.ok (PyVal.list ([ParserPy.resolverGetNestedAttr
          (PyVal.dict [("a", PyVal.dict [("b", PyVal.int 1)])]) "a"].filter
          (fun it => ((pySplit "b=1" ",").map pyStrip).all (fun c => Tmpl.evaluate_condition it c)))) :=
  (claim_C6 (PyVal.dict [("a", PyVal.dict [("b", PyVal.int 1)])]) "a[b=1]" "a" "b=1" Option.none
    rfl rfl rfl (by decide) rfl rfl rfl).1

end TemplateReports
